import Mathlib

/-!
# FlashChat room/session coordination core — shallow embedding

This file embeds the room/session management core of the FlashChat server
(`server/utils/userManagerRedis.js`, `server/socketHandler.js`,
`server/src/services/messageService.js`) as executable Lean definitions and
proves properties of the claims catalogue about them.

Modelling conventions:
* The Redis key space (`user:<id>` hashes, `room:<id>:users` sets,
  `room:<id>:meta` hashes, `room:<id>:pending` sets, `room:<id>:messages`
  lists) is modelled by association lists keyed by strings.  `lookupA`,
  `setA`, `delA` mirror hash-get / hash-set / key-delete; a Redis set is a
  duplicate-free list in insertion order (`sAddStr` / `eraseStr`).
* The module-level in-memory fallback (`inMemoryUsers`, `inMemoryRooms`),
  the cleanup-timer map (`roomCleanupTimers`) and the socket handler's
  `recentlyRemovedUsers` set live in the same process, so they are fields of
  the single state record `DB`.  The `redisOn` flag models
  `isRedisConnected()`; the try/catch fallback on a *throwing* Redis call is
  outside the embedding's granularity (only the connected and disconnected
  paths are modelled).
* Admin tokens are generated by `crypto.randomUUID()`; freshness of
  generated tokens is modelled by a counter `nextTok` (each generated token
  is the current counter value, tokens are `Nat`).  A client-supplied token
  is an `Option Nat`; `none` models the absent/falsy token.
* Timestamps (`createdAt`, `lastActivity`, `joinedAt`) carry no claim-level
  information except *presence* of `createdAt` (which decides `isNewRoom`),
  so `createdAt` is modelled as a `Bool` presence flag and `lastActivity` /
  `joinedAt` are elided.  `setTimeout` scheduling is modelled by storing the
  expiry instant (`now + ROOM_CLEANUP_DELAY`) in the timer map.
* Key TTLs (`expire`) and console logging are elided.
-/

namespace FlashChat

/-- Association-list lookup: first entry wins (Redis keys are unique, so on
states built by the operations below this is exact key lookup). -/
def lookupA {α : Type} : List (String × α) → String → Option α
  | [], _ => none
  | (k, v) :: rest, key => if k = key then some v else lookupA rest key

/-- Association-list upsert: replace the first entry for the key, or append a
new entry (mirrors `hSet` / `Map.set` creating the key when absent). -/
def setA {α : Type} : List (String × α) → String → α → List (String × α)
  | [], key, v => [(key, v)]
  | (k, w) :: rest, key, v =>
      if k = key then (key, v) :: rest else (k, w) :: setA rest key v

/-- Association-list delete: drop every entry for the key (mirrors `del` /
`Map.delete`). -/
def delA {α : Type} : List (String × α) → String → List (String × α)
  | [], _ => []
  | (k, w) :: rest, key => if k = key then delA rest key else (k, w) :: delA rest key

/-- Remove one occurrence of a string from a list (mirrors `sRem` on a Redis
set, whose members are unique). -/
def eraseStr : List String → String → List String
  | [], _ => []
  | x :: rest, y => if x = y then rest else x :: eraseStr rest y

/-- Add a member to a Redis set: no-op when already present, else append. -/
def sAddStr (l : List String) (x : String) : List String :=
  if x ∈ l then l else l ++ [x]

@[simp] theorem lookupA_nil {α : Type} (k : String) : lookupA ([] : List (String × α)) k = none := rfl

@[simp] theorem lookupA_cons {α : Type} (k key : String) (v : α) (rest : List (String × α)) :
    lookupA ((k, v) :: rest) key = if k = key then some v else lookupA rest key := rfl

@[simp] theorem lookupA_setA_self {α : Type} (l : List (String × α)) (k : String) (v : α) :
    lookupA (setA l k v) k = some v := by
  induction l with
  | nil => simp [setA]
  | cons hd tl ih =>
      obtain ⟨k', v'⟩ := hd
      by_cases h : k' = k <;> simp [setA, h, ih]

@[simp] theorem lookupA_setA_ne {α : Type} (l : List (String × α)) (k k' : String) (v : α)
    (h : k ≠ k') : lookupA (setA l k v) k' = lookupA l k' := by
  induction l with
  | nil => simp [setA, lookupA, h]
  | cons hd tl ih =>
      obtain ⟨k₀, v₀⟩ := hd
      by_cases h₀ : k₀ = k
      · subst h₀; simp [setA, lookupA, h]
      · simp [setA, h₀, lookupA, ih]

@[simp] theorem lookupA_delA_self {α : Type} (l : List (String × α)) (k : String) :
    lookupA (delA l k) k = none := by
  induction l with
  | nil => simp [delA]
  | cons hd tl ih =>
      obtain ⟨k₀, v₀⟩ := hd
      by_cases h₀ : k₀ = k <;> simp [delA, h₀, ih]

@[simp] theorem lookupA_delA_ne {α : Type} (l : List (String × α)) (k k' : String)
    (h : k ≠ k') : lookupA (delA l k) k' = lookupA l k' := by
  induction l with
  | nil => simp [delA]
  | cons hd tl ih =>
      obtain ⟨k₀, v₀⟩ := hd
      by_cases h₀ : k₀ = k
      · subst h₀; simp [delA, lookupA, h, ih]
      · simp [delA, h₀, lookupA, ih]

theorem lookupA_mem {α : Type} {l : List (String × α)} {k : String} {v : α}
    (h : lookupA l k = some v) : (k, v) ∈ l := by
  induction l with
  | nil => simp [lookupA] at h
  | cons hd tl ih =>
      obtain ⟨k₀, v₀⟩ := hd
      by_cases h₀ : k₀ = k
      · subst h₀
        simp [lookupA] at h
        simp [h]
      · simp [lookupA, h₀] at h
        exact List.mem_cons_of_mem _ (ih h)

theorem mem_setA {α : Type} {l : List (String × α)} {k : String} {v : α} {e : String × α}
    (h : e ∈ setA l k v) : e = (k, v) ∨ e ∈ l := by
  induction l with
  | nil => simpa [setA] using h
  | cons hd tl ih =>
      obtain ⟨k₀, v₀⟩ := hd
      by_cases h₀ : k₀ = k
      · subst h₀
        simp [setA] at h
        rcases h with h | h
        · exact Or.inl (by simp [h])
        · exact Or.inr (List.mem_cons_of_mem _ h)
      · simp [setA, h₀] at h
        rcases h with h | h
        · exact Or.inr (by simp [h])
        · rcases ih h with h' | h'
          · exact Or.inl h'
          · exact Or.inr (List.mem_cons_of_mem _ h')

theorem mem_delA {α : Type} {l : List (String × α)} {k : String} {e : String × α}
    (h : e ∈ delA l k) : e ∈ l := by
  induction l with
  | nil => simp [delA] at h
  | cons hd tl ih =>
      obtain ⟨k₀, v₀⟩ := hd
      by_cases h₀ : k₀ = k
      · subst h₀
        simp [delA] at h
        exact List.mem_cons_of_mem _ (ih h)
      · simp [delA, h₀] at h
        rcases h with h | h
        · simp [h]
        · exact List.mem_cons_of_mem _ (ih h)

/-! ## Data model (`userManagerRedis.js` schema) -/

/-- One `user:<socketId>` hash: `{ id, username, room }` (the `joinedAt`
timestamp is elided).  Also the element type of the in-memory `inMemoryUsers`
array. -/
structure UserRec where
  id : String
  username : String
  room : String
deriving DecidableEq, Repr

/-- One `room:<roomId>:meta` hash.  `createdAt` records *presence* of the
`createdAt` field (`addUser` tests `!roomMeta.createdAt` to decide whether the
room is new); `requireAdmin` models the `'true'`/`'false'` string with a
missing field reading as `false`. -/
structure RoomMeta where
  createdAt : Bool
  adminToken : Option Nat
  adminSocketId : Option String
  requireAdmin : Bool
deriving DecidableEq, Repr

/-- A pending join request (`{ socketId, username }`; the `requestedAt`
timestamp is elided). -/
structure PendingUser where
  socketId : String
  username : String
deriving DecidableEq, Repr

/-- One entry of the in-memory `inMemoryRooms` map.  JS objects acquire the
optional fields lazily; absent `adminToken`/`adminSocketId` are `none`,
absent `pending` is `[]`. -/
structure MemRoom where
  userCount : Int
  adminToken : Option Nat
  adminSocketId : Option String
  requireAdmin : Bool
  pending : List PendingUser
deriving DecidableEq, Repr

/-- The whole process state: the Redis key space, the in-memory fallback
store, the cleanup-timer map, the socket handler's recently-removed marker
set, and the fresh-token counter. -/
structure DB where
  redisOn : Bool
  users : List (String × UserRec)
  roomUsers : List (String × List String)
  roomMeta : List (String × RoomMeta)
  roomPending : List (String × List PendingUser)
  roomMessages : List (String × List Nat)
  memUsers : List UserRec
  memRooms : List (String × MemRoom)
  timers : List (String × Nat)
  recentlyRemoved : List String
  nextTok : Nat
deriving DecidableEq, Repr

/-- `ROOM_CAPACITY.DEFAULT` -/
def CAPACITY_DEFAULT : Nat := 50
/-- `ROOM_CAPACITY.LOCATION` -/
def CAPACITY_LOCATION : Nat := 100
/-- `ROOM_CLEANUP_DELAY` (milliseconds) -/
def ROOM_CLEANUP_DELAY : Nat := 10 * 60 * 1000

/-- ASCII whitespace (the characters JS `trim` strips that can appear in the
sanitized inputs reaching this layer). -/
def isWs (c : Char) : Bool := c = ' ' ∨ c = '\t' ∨ c = '\n' ∨ c = '\r'

/-- JS `String.prototype.trim` on a char list. -/
def trimChars (l : List Char) : List Char :=
  ((l.dropWhile isWs).reverse.dropWhile isWs).reverse

/-- ASCII `toLowerCase` on one character. -/
def lowerChar (c : Char) : Char :=
  if 65 ≤ c.toNat ∧ c.toNat ≤ 90 then Char.ofNat (c.toNat + 32) else c
/-- ASCII `toUpperCase` on one character. -/
def upperChar (c : Char) : Char :=
  if 97 ≤ c.toNat ∧ c.toNat ≤ 122 then Char.ofNat (c.toNat - 32) else c

/-- `username.trim().toLowerCase()` (ASCII case fold: the handler's
`sanitizeUsername` restricts usernames to `[a-zA-Z0-9 _-]`). -/
def normUsername (s : String) : String := ⟨(trimChars s.data).map lowerChar⟩
/-- `room.trim().toUpperCase()` (ASCII: `sanitizeRoomId` restricts room ids
to `[A-Z0-9._-]`). -/
def normRoom (s : String) : String := ⟨(trimChars s.data).map upperChar⟩

/-- `room.startsWith('LOC_')` -/
def isLocRoom (s : String) : Bool := s.data.take 4 = ['L', 'O', 'C', '_']

/-! ### Normalization is idempotent

`addUser` re-normalizes strings that the handler (or `addUser` itself)
already normalized; the JS functions are idempotent and so are these. -/

theorem toNat_ofNat_valid {n : Nat} (h : n.isValidChar) : (Char.ofNat n).toNat = n := by
  simp only [Char.ofNat, dif_pos h, Char.ofNatAux, Char.toNat]
  simp [UInt32.toNat]

theorem char_eq_iff_toNat {a b : Char} : a = b ↔ a.toNat = b.toNat := by
  constructor
  · intro h; rw [h]
  · intro h
    exact Char.ext (UInt32.toNat.inj h)

theorem toNat_upperChar (c : Char) :
    (upperChar c).toNat = if 97 ≤ c.toNat ∧ c.toNat ≤ 122 then c.toNat - 32 else c.toNat := by
  unfold upperChar
  split
  · next h => exact toNat_ofNat_valid (Or.inl (by omega))
  · rfl

theorem toNat_lowerChar (c : Char) :
    (lowerChar c).toNat = if 65 ≤ c.toNat ∧ c.toNat ≤ 90 then c.toNat + 32 else c.toNat := by
  unfold lowerChar
  split
  · next h => exact toNat_ofNat_valid (Or.inl (by omega))
  · rfl

theorem upperChar_idem (c : Char) : upperChar (upperChar c) = upperChar c := by
  by_cases h : 97 ≤ c.toNat ∧ c.toNat ≤ 122
  · have h1 : (upperChar c).toNat = c.toNat - 32 := by rw [toNat_upperChar, if_pos h]
    have h2 : ¬(97 ≤ (upperChar c).toNat ∧ (upperChar c).toNat ≤ 122) := by omega
    show (if 97 ≤ (upperChar c).toNat ∧ (upperChar c).toNat ≤ 122 then
        Char.ofNat ((upperChar c).toNat - 32) else upperChar c) = upperChar c
    rw [if_neg h2]
  · have h0 : upperChar c = c := by unfold upperChar; rw [if_neg h]
    rw [h0]
    exact h0

theorem lowerChar_idem (c : Char) : lowerChar (lowerChar c) = lowerChar c := by
  by_cases h : 65 ≤ c.toNat ∧ c.toNat ≤ 90
  · have h1 : (lowerChar c).toNat = c.toNat + 32 := by rw [toNat_lowerChar, if_pos h]
    have h2 : ¬(65 ≤ (lowerChar c).toNat ∧ (lowerChar c).toNat ≤ 90) := by omega
    show (if 65 ≤ (lowerChar c).toNat ∧ (lowerChar c).toNat ≤ 90 then
        Char.ofNat ((lowerChar c).toNat + 32) else lowerChar c) = lowerChar c
    rw [if_neg h2]
  · have h0 : lowerChar c = c := by unfold lowerChar; rw [if_neg h]
    rw [h0]
    exact h0

theorem isWs_toNat (c : Char) :
    isWs c = true ↔ (c.toNat = 32 ∨ c.toNat = 9 ∨ c.toNat = 10 ∨ c.toNat = 13) := by
  have h1 : (' ' : Char).toNat = 32 := rfl
  have h2 : ('\t' : Char).toNat = 9 := rfl
  have h3 : ('\n' : Char).toNat = 10 := rfl
  have h4 : ('\r' : Char).toNat = 13 := rfl
  unfold isWs
  simp only [decide_eq_true_eq, char_eq_iff_toNat, h1, h2, h3, h4]

theorem isWs_upperChar (c : Char) : isWs (upperChar c) = isWs c := by
  by_cases h : 97 ≤ c.toNat ∧ c.toNat ≤ 122
  · have h1 : (upperChar c).toNat = c.toNat - 32 := by rw [toNat_upperChar, if_pos h]
    have hA : isWs (upperChar c) = false := by
      rw [← Bool.not_eq_true, isWs_toNat]
      omega
    have hB : isWs c = false := by
      rw [← Bool.not_eq_true, isWs_toNat]
      omega
    rw [hA, hB]
  · have h0 : upperChar c = c := by unfold upperChar; rw [if_neg h]
    rw [h0]

theorem isWs_lowerChar (c : Char) : isWs (lowerChar c) = isWs c := by
  by_cases h : 65 ≤ c.toNat ∧ c.toNat ≤ 90
  · have h1 : (lowerChar c).toNat = c.toNat + 32 := by rw [toNat_lowerChar, if_pos h]
    have hA : isWs (lowerChar c) = false := by
      rw [← Bool.not_eq_true, isWs_toNat]
      omega
    have hB : isWs c = false := by
      rw [← Bool.not_eq_true, isWs_toNat]
      omega
    rw [hA, hB]
  · have h0 : lowerChar c = c := by unfold lowerChar; rw [if_neg h]
    rw [h0]

theorem dropWhile_idem {α : Type} (p : α → Bool) (l : List α) :
    (l.dropWhile p).dropWhile p = l.dropWhile p := by
  induction l with
  | nil => rfl
  | cons a tl ih =>
      by_cases h : p a = true
      · rw [List.dropWhile_cons_of_pos h, ih]
      · rw [List.dropWhile_cons_of_neg h, List.dropWhile_cons_of_neg h]

theorem dropWhile_head_false {α : Type} (p : α → Bool) (l : List α) :
    ∀ a, (l.dropWhile p).head? = some a → p a = false := by
  induction l with
  | nil => intro a h; simp at h
  | cons b tl ih =>
      intro a h
      by_cases hb : p b = true
      · rw [List.dropWhile_cons_of_pos hb] at h
        exact ih a h
      · rw [List.dropWhile_cons_of_neg hb] at h
        simp at h
        rw [← h]
        exact Bool.not_eq_true _ |>.mp hb

theorem dropWhile_of_head_false {α : Type} (p : α → Bool) (l : List α)
    (h : ∀ a, l.head? = some a → p a = false) : l.dropWhile p = l := by
  cases l with
  | nil => rfl
  | cons a tl => exact List.dropWhile_cons_of_neg (by simp [h a rfl])

theorem exists_append_dropWhile {α : Type} (p : α → Bool) (l : List α) :
    ∃ t, l = t ++ l.dropWhile p := by
  induction l with
  | nil => exact ⟨[], rfl⟩
  | cons a tl ih =>
      by_cases h : p a = true
      · obtain ⟨t, ht⟩ := ih
        exact ⟨a :: t, by rw [List.dropWhile_cons_of_pos h]; simpa using ht⟩
      · exact ⟨[], by rw [List.dropWhile_cons_of_neg h]; rfl⟩

/-- The head of the doubly-trimmed reverse image fails the predicate — the
core step of trim idempotence. -/
theorem trimChars_head_false (l : List Char) :
    ∀ a, (trimChars l).head? = some a → isWs a = false := by
  intro a ha
  unfold trimChars at ha
  set D := l.dropWhile isWs with hD
  set W := D.reverse.dropWhile isWs with hW
  obtain ⟨t, ht⟩ := exists_append_dropWhile isWs D.reverse
  rw [← hW] at ht
  cases hWe : W with
  | nil => rw [hWe] at ha; simp at ha
  | cons w ws =>
      have hWne : W ≠ [] := by rw [hWe]; simp
      have h1 : W.reverse.head? = D.reverse.reverse.head? := by
        rw [ht, List.reverse_append]
        cases hrev : W.reverse with
        | nil => exact absurd (by simpa using hrev) hWne
        | cons x xs => simp [hrev]
      rw [List.reverse_reverse] at h1
      rw [h1] at ha
      rw [hD] at ha
      exact dropWhile_head_false isWs l a ha

/-- JS `trim` is idempotent. -/
theorem trimChars_idem (l : List Char) : trimChars (trimChars l) = trimChars l := by
  have hhead := trimChars_head_false l
  have h1 : (trimChars l).dropWhile isWs = trimChars l :=
    dropWhile_of_head_false isWs (trimChars l) hhead
  show (((trimChars l).dropWhile isWs).reverse.dropWhile isWs).reverse = trimChars l
  rw [h1]
  unfold trimChars
  rw [List.reverse_reverse, dropWhile_idem]

theorem dropWhile_map_pres {α : Type} (p : α → Bool) (f : α → α)
    (hf : ∀ c, p (f c) = p c) (l : List α) :
    (l.map f).dropWhile p = (l.dropWhile p).map f := by
  induction l with
  | nil => rfl
  | cons a tl ih =>
      by_cases h : p a = true
      · rw [List.map_cons, List.dropWhile_cons_of_pos (by rw [hf]; exact h),
          List.dropWhile_cons_of_pos h, ih]
      · rw [List.map_cons, List.dropWhile_cons_of_neg (by rw [hf]; exact h),
          List.dropWhile_cons_of_neg h, List.map_cons]

theorem trimChars_map_pres (f : Char → Char) (hf : ∀ c, isWs (f c) = isWs c) (l : List Char) :
    trimChars (l.map f) = (trimChars l).map f := by
  unfold trimChars
  rw [dropWhile_map_pres isWs f hf, ← List.map_reverse, dropWhile_map_pres isWs f hf,
    ← List.map_reverse]

/-- `room.trim().toUpperCase()` is idempotent. -/
theorem normRoom_idem (s : String) : normRoom (normRoom s) = normRoom s := by
  show String.mk (((trimChars s.data).map upperChar |> trimChars).map upperChar) =
    String.mk ((trimChars s.data).map upperChar)
  rw [trimChars_map_pres upperChar isWs_upperChar, trimChars_idem, List.map_map]
  congr 1
  apply List.map_congr_left
  intro c _
  exact upperChar_idem c

/-- `username.trim().toLowerCase()` is idempotent. -/
theorem normUsername_idem (s : String) : normUsername (normUsername s) = normUsername s := by
  show String.mk (((trimChars s.data).map lowerChar |> trimChars).map lowerChar) =
    String.mk ((trimChars s.data).map lowerChar)
  rw [trimChars_map_pres lowerChar isWs_lowerChar, trimChars_idem, List.map_map]
  congr 1
  apply List.map_congr_left
  intro c _
  exact lowerChar_idem c

/-! ## Manager operations (`userManagerRedis.js`) -/

/-- `getUsersInRoom`'s keep-condition for a set member: the `user:<id>` hash
exists and its `username` field is non-empty (`userData && userData.username`). -/
def userUsable (users : List (String × UserRec)) (id : String) : Bool :=
  match lookupA users id with
  | some u => u.username ≠ ""
  | none => false

/-- `sMembers(room:<r>:users)` (missing key reads as the empty set). -/
def roomIds (db : DB) (r : String) : List String := (lookupA db.roomUsers r).getD []

/-- `getUsersInRoom`, Redis path with `room` already normalized: reads the
member set, returns the hashes that exist with a non-empty username, and
lazily `sRem`s the stale ids from the set. -/
def getUsersInRoomRedis (db : DB) (r : String) : DB × List UserRec :=
  let ids := roomIds db r
  let kept := ids.filter (userUsable db.users)
  let out := kept.filterMap (fun i => lookupA db.users i)
  let db' := if kept = ids then db else { db with roomUsers := setA db.roomUsers r kept }
  (db', out)

/-- `getUsersInRoom(room)`: normalizes, then reads the connected store. -/
def getUsersInRoom (db : DB) (room : String) : DB × List UserRec :=
  let r := normRoom room
  if db.redisOn then getUsersInRoomRedis db r
  else (db, db.memUsers.filter (fun u => u.room = r))

/-- `getRoomCount(room)` -/
def getRoomCount (db : DB) (room : String) : DB × Nat :=
  let (db', us) := getUsersInRoom db room
  (db', us.length)

/-- Result of `checkRoomCapacity`. -/
structure CapInfo where
  isFull : Bool
  current : Nat
  limit : Nat
deriving DecidableEq, Repr

/-- Capacity derived from the room id shape (`ROOM_CAPACITY.LOCATION` for
`LOC_`-prefixed ids, `ROOM_CAPACITY.DEFAULT` otherwise). -/
def roomCap (r : String) : Nat := if isLocRoom r then CAPACITY_LOCATION else CAPACITY_DEFAULT

/-- `checkRoomCapacity(room)`: note the `LOC_` test runs on the room id *as
passed* (callers inside `addUser` pass it normalized). -/
def checkRoomCapacity (db : DB) (room : String) : DB × CapInfo :=
  let (db', us) := getUsersInRoom db room
  let cap := roomCap room
  (db', { isFull := decide (us.length ≥ cap), current := us.length, limit := cap })

/-- The error taxonomy produced by `addUser` (source strings: `'Username and
room are required!'`, ``Room is full! Maximum capacity: ${limit} users.``,
`'Username is already taken in this room!'`). -/
inductive JoinErr where
  | invalidInput
  | roomFull (limit : Nat)
  | usernameTaken
deriving DecidableEq, Repr

/-- `addUser`'s return value: `{ user, adminToken }` on success (with the
user's `isAdmin` flag), or `{ error }`. -/
inductive AddResult where
  | err (e : JoinErr)
  | ok (user : UserRec) (isAdmin : Bool) (adminToken : Option Nat)
deriving DecidableEq, Repr

/-- All-fields-absent room meta hash (what `hGetAll` of a missing key merges
against). -/
def defaultMeta : RoomMeta :=
  { createdAt := false, adminToken := none, adminSocketId := none, requireAdmin := false }

/-- `addUserInMemory` — the volatile fallback.  Note: no capacity check, and
no eviction of an existing entry with the same `id`. -/
def addUserInMemory (db : DB) (id username room : String) (adminToken : Option Nat)
    (requireAdmin : Bool) : DB × AddResult :=
  let uname := normUsername username
  let r := normRoom room
  if db.memUsers.any (fun u => u.room = r && u.username = uname) then
    (db, .err .usernameTaken)
  else
    let rec0 : UserRec := ⟨id, uname, r⟩
    let users' := db.memUsers ++ [rec0]
    let isLoc := isLocRoom r
    match lookupA db.memRooms r with
    | none =>
        if isLoc || !requireAdmin then
          ({ db with memUsers := users',
                     memRooms := setA db.memRooms r ⟨1, none, none, false, []⟩ },
           .ok rec0 false none)
        else
          ({ db with memUsers := users',
                     memRooms := setA db.memRooms r ⟨1, some db.nextTok, some id, true, []⟩,
                     nextTok := db.nextTok + 1 },
           .ok rec0 true (some db.nextTok))
    | some rd =>
        if isLoc = false ∧ adminToken.isSome ∧ rd.adminToken = adminToken then
          ({ db with memUsers := users',
                     memRooms := setA db.memRooms r
                       { rd with userCount := rd.userCount + 1, adminSocketId := some id } },
           .ok rec0 true adminToken)
        else
          ({ db with memUsers := users',
                     memRooms := setA db.memRooms r { rd with userCount := rd.userCount + 1 } },
           .ok rec0 false none)

/-- The room-meta update inside `addUser` (lines 104–147): a new room either
gets no admin concept (location room or no admin control requested) or grants
the first user admin with a freshly generated token; an existing room
re-confirms a returning admin whose supplied token matches.  Returns the new
meta hash, the `isAdmin` flag, the token to return, and the next fresh-token
counter. -/
def addUserMetaStep (m0 : RoomMeta) (isLoc : Bool) (id : String) (adminToken : Option Nat)
    (requireAdmin : Bool) (fresh : Nat) : RoomMeta × Bool × Option Nat × Nat :=
  if m0.createdAt = false then
    if isLoc || !requireAdmin then
      ({ m0 with createdAt := true, requireAdmin := false }, false, none, fresh)
    else
      ({ m0 with createdAt := true, adminToken := some fresh,
                 adminSocketId := some id, requireAdmin := true },
       true, some fresh, fresh + 1)
  else
    match adminToken, m0.adminToken with
    | some t, some t2 =>
        if isLoc = false ∧ t = t2 then
          ({ m0 with adminSocketId := some id }, true, some t, fresh)
        else (m0, false, none, fresh)
    | _, _ => (m0, false, none, fresh)

/-- The duplicate-username scan in `addUser` (lines 77–86): some member of
the room's set has a stored hash whose username equals the normalized
incoming one. -/
def dupNameCheck (db1 : DB) (uname r : String) : Bool :=
  (roomIds db1 r).any (fun sid =>
    match lookupA db1.users sid with
    | some u => u.username = uname
    | none => false)

/-- The mutation tail of a successful Redis-path `addUser` (lines 88–161):
store the user hash, `sAdd` the id to the room's set, apply the meta step and
cancel any armed cleanup timer. -/
def addUserCommit (db1 : DB) (id uname r : String) (adminToken : Option Nat)
    (requireAdmin : Bool) : DB × AddResult :=
  let existing := roomIds db1 r
  let rec0 : UserRec := ⟨id, uname, r⟩
  let db2 := { db1 with users := setA db1.users id rec0,
                        roomUsers := setA db1.roomUsers r (sAddStr existing id) }
  let m0 := (lookupA db2.roomMeta r).getD defaultMeta
  let ms := addUserMetaStep m0 (isLocRoom r) id adminToken requireAdmin db2.nextTok
  let db3 := { db2 with roomMeta := setA db2.roomMeta r ms.1,
                        nextTok := ms.2.2.2,
                        timers := delA db2.timers r }
  (db3, .ok rec0 ms.2.1 ms.2.2.1)

/-- `addUser` — validation, normalization, fallback dispatch, capacity check,
duplicate-username check, then the mutation tail, in source order. -/
def addUser (db : DB) (id username room : String) (adminToken : Option Nat)
    (requireAdmin : Bool) : DB × AddResult :=
  if username = "" ∨ room = "" then (db, .err .invalidInput)
  else
    let uname := normUsername username
    let r := normRoom room
    if db.redisOn = false then addUserInMemory db id uname r adminToken requireAdmin
    else
      let (db1, cap) := checkRoomCapacity db r
      if cap.isFull then (db1, .err (.roomFull cap.limit))
      else if dupNameCheck db1 uname r then (db1, .err .usernameTaken)
      else addUserCommit db1 id uname r adminToken requireAdmin

/-- `removeUserInMemory`: splice the first entry with the id, decrement the
room's counter when the room record exists. -/
def removeUserFirst : List UserRec → String → List UserRec
  | [], _ => []
  | u :: rest, id => if u.id = id then rest else u :: removeUserFirst rest id

def removeUserInMemory (db : DB) (id : String) : DB × Option UserRec :=
  match db.memUsers.find? (fun u => u.id = id) with
  | none => (db, none)
  | some u =>
      let db1 := { db with memUsers := removeUserFirst db.memUsers id }
      if u.room ≠ "" then
        match lookupA db1.memRooms u.room with
        | some rd =>
            let rooms' := setA db1.memRooms u.room { rd with userCount := rd.userCount - 1 }
            ({ db1 with memRooms := rooms' }, some u)
        | none => (db1, some u)
      else (db1, some u)

/-- `removeUser`: Redis path reads the hash, falls back to the in-memory
removal when the hash is missing or has an empty username, otherwise `sRem`s
the id from its room's set and deletes the hash. -/
def removeUser (db : DB) (id : String) : DB × Option UserRec :=
  if db.redisOn = false then removeUserInMemory db id
  else
    match lookupA db.users id with
    | none => removeUserInMemory db id
    | some u =>
        if u.username = "" then removeUserInMemory db id
        else
          let db1 :=
            if u.room ≠ "" then
              match lookupA db.roomUsers u.room with
              | some ids => { db with roomUsers := setA db.roomUsers u.room (eraseStr ids id) }
              | none => db
            else db
          ({ db1 with users := delA db1.users id }, some u)

/-- `getUser`: Redis hash first, in-memory fallback when missing or
username-less. -/
def getUser (db : DB) (id : String) : Option UserRec :=
  if db.redisOn = false then db.memUsers.find? (fun u => u.id = id)
  else
    match lookupA db.users id with
    | some u => if u.username = "" then db.memUsers.find? (fun v => v.id = id) else some u
    | none => db.memUsers.find? (fun u => u.id = id)

/-- `getRoomAdmin(room)` -/
def getRoomAdmin (db : DB) (room : String) : Option String :=
  let r := normRoom room
  if db.redisOn = false then (lookupA db.memRooms r).bind (·.adminSocketId)
  else (lookupA db.roomMeta r).bind (·.adminSocketId)

/-- `isRoomAdmin(socketId, room)` -/
def isRoomAdmin (db : DB) (sid room : String) : Bool :=
  getRoomAdmin db room = some sid

/-- `getRoomAdminToken(room)` -/
def getRoomAdminToken (db : DB) (room : String) : Option Nat :=
  let r := normRoom room
  if db.redisOn = false then (lookupA db.memRooms r).bind (·.adminToken)
  else (lookupA db.roomMeta r).bind (·.adminToken)

/-- `isRoomAdminRequired(room)` -/
def isRoomAdminRequired (db : DB) (room : String) : Bool :=
  let r := normRoom room
  if db.redisOn = false then ((lookupA db.memRooms r).map (·.requireAdmin)).getD false
  else ((lookupA db.roomMeta r).map (·.requireAdmin)).getD false

/-- `transferAdmin(room, newAdminSocketId)`: generate a fresh token, install
it with the new admin socket id (the Redis `hSet` merges into existing meta,
or creates a meta hash with only the two admin fields). -/
def transferAdmin (db : DB) (room newId : String) : DB × Option Nat :=
  let r := normRoom room
  let tok := db.nextTok
  if db.redisOn = false then
    match lookupA db.memRooms r with
    | some rd =>
        let rooms' := setA db.memRooms r { rd with adminSocketId := some newId, adminToken := some tok }
        ({ db with memRooms := rooms', nextTok := db.nextTok + 1 }, some tok)
    | none => (db, none)
  else
    let m0 := (lookupA db.roomMeta r).getD defaultMeta
    let meta' := setA db.roomMeta r { m0 with adminSocketId := some newId, adminToken := some tok }
    ({ db with roomMeta := meta', nextTok := db.nextTok + 1 }, some tok)

/-- `addPendingUser(room, pendingUser)` (Redis `sAdd` of the JSON entry; the
in-memory path creates a `userCount: 0` room record when absent). -/
def addPendingUser (db : DB) (room : String) (p : PendingUser) : DB :=
  let r := normRoom room
  if db.redisOn = false then
    match lookupA db.memRooms r with
    | none => { db with memRooms := setA db.memRooms r ⟨0, none, none, false, [p]⟩ }
    | some rd => { db with memRooms := setA db.memRooms r { rd with pending := rd.pending ++ [p] } }
  else
    let cur := (lookupA db.roomPending r).getD []
    { db with roomPending := setA db.roomPending r (if p ∈ cur then cur else cur ++ [p]) }

/-- `getPendingUsers(room)` -/
def getPendingUsers (db : DB) (room : String) : List PendingUser :=
  let r := normRoom room
  if db.redisOn = false then
    match lookupA db.memRooms r with
    | some rd => rd.pending
    | none => []
  else (lookupA db.roomPending r).getD []

def removePendingFirst : List PendingUser → String → List PendingUser
  | [], _ => []
  | p :: rest, sid => if p.socketId = sid then rest else p :: removePendingFirst rest sid

/-- `removePendingUser(room, socketId)`: remove and return the first pending
entry with the socket id. -/
def removePendingUser (db : DB) (room sid : String) : DB × Option PendingUser :=
  let r := normRoom room
  if db.redisOn = false then
    match lookupA db.memRooms r with
    | some rd =>
        match rd.pending.find? (fun p => p.socketId = sid) with
        | some p =>
            let rooms' := setA db.memRooms r { rd with pending := removePendingFirst rd.pending sid }
            ({ db with memRooms := rooms' }, some p)
        | none => (db, none)
    | none => (db, none)
  else
    let cur := (lookupA db.roomPending r).getD []
    match cur.find? (fun p => p.socketId = sid) with
    | some p =>
        ({ db with roomPending := setA db.roomPending r (removePendingFirst cur sid) }, some p)
    | none => (db, none)

/-- `clearPendingUsers(room)` -/
def clearPendingUsers (db : DB) (room : String) : DB :=
  let r := normRoom room
  if db.redisOn = false then
    match lookupA db.memRooms r with
    | some rd => { db with memRooms := setA db.memRooms r { rd with pending := [] } }
    | none => db
  else { db with roomPending := delA db.roomPending r }

/-- `scheduleRoomCleanup(room, onCleanup)`: clear any armed timer and arm a
fresh one expiring `ROOM_CLEANUP_DELAY` after `now` (replace, never stack). -/
def scheduleRoomCleanup (db : DB) (room : String) (now : Nat) : DB :=
  let r := normRoom room
  { db with timers := setA db.timers r (now + ROOM_CLEANUP_DELAY) }

/-- `cancelRoomCleanup(room)` -/
def cancelRoomCleanup (db : DB) (room : String) : DB :=
  let r := normRoom room
  { db with timers := delA db.timers r }

/-- `clearRoomMessages(roomId)` from `messageService.js` (as invoked by the
teardown callback; no-op when Redis is down). -/
def clearRoomMessages (db : DB) (room : String) : DB :=
  if db.redisOn = false then db
  else { db with roomMessages := delA db.roomMessages room }

/-- The body of the `setTimeout` armed by `scheduleRoomCleanup`: re-verify the
room is still empty, and only then run the message-erasure callback, delete
the room's meta / member-set / pending keys, and drop the in-memory room.
The timer is one-shot, so its map entry is consumed in both cases. -/
def fireRoomCleanup (db : DB) (room : String) : DB :=
  let r := normRoom room
  let (db1, us) := getUsersInRoom db r
  if us.length = 0 then
    let db2 := clearRoomMessages db1 r
    let db3 :=
      if db2.redisOn then
        { db2 with roomMeta := delA db2.roomMeta r,
                   roomUsers := delA db2.roomUsers r,
                   roomPending := delA db2.roomPending r }
      else db2
    { db3 with memRooms := delA db3.memRooms r, timers := delA db3.timers r }
  else { db1 with timers := delA db1.timers r }

/-! ## Socket handler layer (`socketHandler.js`)

The handlers are modelled from the point where inputs have passed rate
limiting, sanitization and the length checks (`sanitizeUsername` /
`sanitizeRoomId` output); transport concerns (`socket.join`, chat-history
fetch, broadcast fan-out) are reduced to an emitted-event list. -/

/-- Externally visible notifications the handlers emit (payloads reduced to
what identifies the notification). -/
inductive Ev where
  | leftMessage (room username : String)
  | userLeft (room username : String)
  | newAdminStatus (sid : String) (tok : Option Nat)
  | adminChanged (room username : String)
  | roomData (room : String)
  | joinRequest (adminSid sid username room : String)
  | userJoined (room username : String)
deriving DecidableEq, Repr

/-- `getRoomInfo(room)` threads two reads (`getUsersInRoom`,
`checkRoomCapacity`) through the state; only the lazy stale-id cleanup those
reads perform is state-relevant. -/
def getRoomInfoM (db : DB) (room : String) : DB :=
  let (db1, _) := getUsersInRoom db room
  (checkRoomCapacity db1 room).1

/-- `handleUserLeaving(socket, user)`: leave broadcasts, admin handoff when
the departing member was admin of a transferable (non-`requireAdmin`) room
with members remaining, and empty-room teardown arming. -/
def handleUserLeaving (db : DB) (sid : String) (u : UserRec) (now : Nat) : DB × List Ev :=
  let wasAdmin := isRoomAdmin db sid u.room
  let evs0 := [Ev.leftMessage u.room u.username, Ev.userLeft u.room u.username]
  let db1 := getRoomInfoM db u.room
  let (db2, usersIn) := getUsersInRoom db1 u.room
  let roomRequiresAdmin := isRoomAdminRequired db2 u.room
  let (db3, evs1) :=
    if wasAdmin = true ∧ usersIn.length > 0 ∧ roomRequiresAdmin = false then
      match usersIn with
      | [] => (db2, ([] : List Ev))
      | newAdmin :: _ =>
          let (dbT, tokOpt) := transferAdmin db2 u.room newAdmin.id
          (dbT, [Ev.newAdminStatus newAdmin.id tokOpt, Ev.adminChanged u.room newAdmin.username])
    else (db2, [])
  let evs := evs0 ++ evs1 ++ [Ev.roomData u.room]
  if usersIn.length = 0 then
    let db4 := clearPendingUsers db3 u.room
    (scheduleRoomCleanup db4 u.room now, evs)
  else (db3, evs)

/-- The `leaveRoom` handler: duplicate-suppression marker, `removeUser`,
`handleUserLeaving` when a session was actually removed. -/
def leaveOp (db : DB) (sid : String) (now : Nat) : DB × List Ev :=
  if sid ∈ db.recentlyRemoved then (db, [])
  else
    let db0 := { db with recentlyRemoved := sid :: db.recentlyRemoved }
    match removeUser db0 sid with
    | (db1, none) => (db1, [])
    | (db1, some u) => handleUserLeaving db1 sid u now

/-- The `disconnect` handler: when the marker is present it is consumed and
nothing else happens; otherwise same as an explicit leave. -/
def disconnectOp (db : DB) (sid : String) (now : Nat) : DB × List Ev :=
  if sid ∈ db.recentlyRemoved then
    ({ db with recentlyRemoved := eraseStr db.recentlyRemoved sid }, [])
  else
    let db0 := { db with recentlyRemoved := sid :: db.recentlyRemoved }
    match removeUser db0 sid with
    | (db1, none) => (db1, [])
    | (db1, some u) => handleUserLeaving db1 sid u now

/-- Outcome reported to the joining client. -/
inductive JoinOutcome where
  | pending
  | failed (e : JoinErr)
  | joined (isAdmin : Bool) (adminToken : Option Nat)
deriving DecidableEq, Repr

/-- The `join` handler from the admin/pending gate onward (inputs already
sanitized and length-checked): reads the room's admin state, queues the
request as pending when the approval gate fires, otherwise runs `addUser`
and the post-join bookkeeping. -/
def joinOp (db : DB) (sid username room : String) (adminToken : Option Nat)
    (requireAdmin : Bool) (_now : Nat) : DB × List Ev × JoinOutcome :=
  let currentAdmin := getRoomAdmin db room
  let currentAdminToken := getRoomAdminToken db room
  let (db1, cnt) := getRoomCount db room
  let isNearby := isLocRoom room
  let roomRequiresAdmin := isRoomAdminRequired db1 room
  let isReturningAdmin : Bool :=
    match adminToken, currentAdminToken with
    | some t, some t2 => t = t2
    | _, _ => false
  if currentAdmin.isSome = true ∧ cnt > 0 ∧ isNearby = false ∧ isReturningAdmin = false ∧
      roomRequiresAdmin = true then
    let db2 := addPendingUser db1 room ⟨sid, username⟩
    let evs := match currentAdmin with
      | some a => [Ev.joinRequest a sid username room]
      | none => []
    (db2, evs, .pending)
  else
    match addUser db1 sid username room adminToken requireAdmin with
    | (db2, .err e) => (db2, [], .failed e)
    | (db2, .ok user isAdmin retTok) =>
        let db3 := cancelRoomCleanup db2 user.room
        let db4 := getRoomInfoM db3 user.room
        let (db5, _) := getUsersInRoom db4 user.room
        let adminSid := getRoomAdmin db5 user.room
        let isUserAdmin := isAdmin || decide (adminSid = some sid)
        (db5, [Ev.userJoined user.room user.username], .joined isUserAdmin retTok)

/-- The `approveJoin` handler: admin check, dequeue, then the plain
`AddMember` flow for the approved requester (no admin token, no
`requireAdmin` request). -/
def approveOp (db : DB) (sid pendingSid room : String) : DB × Option JoinErr :=
  match getUser db sid with
  | none => (db, none)
  | some _ =>
      if isRoomAdmin db sid room = false then (db, none)
      else
        match removePendingUser db room pendingSid with
        | (db1, none) => (db1, none)
        | (db1, some p) =>
            match addUser db1 pendingSid p.username room none false with
            | (db2, .err e) => (db2, some e)
            | (db2, .ok _ _ _) =>
                let db3 := getRoomInfoM db2 room
                ((getUsersInRoom db3 room).1, none)

/-- The `rejectJoin` handler: admin check, dequeue, notify requester. -/
def rejectOp (db : DB) (sid pendingSid room : String) : DB :=
  match getUser db sid with
  | none => db
  | some _ =>
      if isRoomAdmin db sid room = false then db
      else (removePendingUser db room pendingSid).1

/-- The `cancelJoinRequest` handler. -/
def cancelOp (db : DB) (sid room : String) : DB :=
  (removePendingUser db room sid).1

/-- The `kickUser` handler: admin check, no self-kick, target must be in the
named room, then `removeUser` plus room-data reads. -/
def kickOp (db : DB) (sid targetSid room : String) : DB :=
  if isRoomAdmin db sid room = false then db
  else if targetSid = sid then db
  else
    match getUser db targetSid with
    | none => db
    | some tu =>
        if tu.room ≠ room then db
        else
          let db1 := (removeUser db targetSid).1
          let db2 := getRoomInfoM db1 room
          (getUsersInRoom db2 room).1

/-- The 5-second `setTimeout` that clears a `recentlyRemovedUsers` marker. -/
def unmarkOp (db : DB) (sid : String) : DB :=
  { db with recentlyRemoved := eraseStr db.recentlyRemoved sid }

/-- Firing of an armed cleanup timer (one-shot). -/
def fireTimerOp (db : DB) (room : String) : DB :=
  match lookupA db.timers room with
  | some _ => fireRoomCleanup db room
  | none => db

/-- Every inbound event the coordination core reacts to. -/
inductive Op where
  | join (sid username room : String) (adminToken : Option Nat) (requireAdmin : Bool)
  | leave (sid : String)
  | disconnect (sid : String)
  | approve (sid pendingSid room : String)
  | reject (sid pendingSid room : String)
  | cancelReq (sid room : String)
  | kick (sid targetSid room : String)
  | fire (room : String)
  | unmark (sid : String)
deriving DecidableEq, Repr

/-- One step of the system: dispatch an inbound event at instant `now`. -/
def step (db : DB) (op : Op) (now : Nat) : DB :=
  match op with
  | .join sid u r tok ra => (joinOp db sid u r tok ra now).1
  | .leave sid => (leaveOp db sid now).1
  | .disconnect sid => (disconnectOp db sid now).1
  | .approve sid p r => (approveOp db sid p r).1
  | .reject sid p r => rejectOp db sid p r
  | .cancelReq sid r => cancelOp db sid r
  | .kick sid t r => kickOp db sid t r
  | .fire r => fireTimerOp db r
  | .unmark sid => unmarkOp db sid

/-- The process-start state with a given store mode. -/
def initDB (redisOn : Bool) : DB :=
  { redisOn := redisOn, users := [], roomUsers := [], roomMeta := [], roomPending := [],
    roomMessages := [], memUsers := [], memRooms := [], timers := [], recentlyRemoved := [],
    nextTok := 0 }

/-- Run a whole timestamped event trace from a state. -/
def runOps (db : DB) : List (Op × Nat) → DB
  | [] => db
  | (op, now) :: rest => runOps (step db op now) rest

/-! ## Frame and stability lemmas for the mutating reads -/

@[simp] theorem getUsersInRoom_redisOn (db : DB) (room : String) :
    ((getUsersInRoom db room).1).redisOn = db.redisOn := by
  simp only [getUsersInRoom, getUsersInRoomRedis]
  split
  · split <;> rfl
  · rfl

@[simp] theorem getUsersInRoom_users (db : DB) (room : String) :
    ((getUsersInRoom db room).1).users = db.users := by
  simp only [getUsersInRoom, getUsersInRoomRedis]
  split
  · split <;> rfl
  · rfl

@[simp] theorem getUsersInRoom_roomMeta (db : DB) (room : String) :
    ((getUsersInRoom db room).1).roomMeta = db.roomMeta := by
  simp only [getUsersInRoom, getUsersInRoomRedis]
  split
  · split <;> rfl
  · rfl

@[simp] theorem getUsersInRoom_roomPending (db : DB) (room : String) :
    ((getUsersInRoom db room).1).roomPending = db.roomPending := by
  simp only [getUsersInRoom, getUsersInRoomRedis]
  split
  · split <;> rfl
  · rfl

@[simp] theorem getUsersInRoom_roomMessages (db : DB) (room : String) :
    ((getUsersInRoom db room).1).roomMessages = db.roomMessages := by
  simp only [getUsersInRoom, getUsersInRoomRedis]
  split
  · split <;> rfl
  · rfl

@[simp] theorem getUsersInRoom_memUsers (db : DB) (room : String) :
    ((getUsersInRoom db room).1).memUsers = db.memUsers := by
  simp only [getUsersInRoom, getUsersInRoomRedis]
  split
  · split <;> rfl
  · rfl

@[simp] theorem getUsersInRoom_memRooms (db : DB) (room : String) :
    ((getUsersInRoom db room).1).memRooms = db.memRooms := by
  simp only [getUsersInRoom, getUsersInRoomRedis]
  split
  · split <;> rfl
  · rfl

@[simp] theorem getUsersInRoom_timers (db : DB) (room : String) :
    ((getUsersInRoom db room).1).timers = db.timers := by
  simp only [getUsersInRoom, getUsersInRoomRedis]
  split
  · split <;> rfl
  · rfl

@[simp] theorem getUsersInRoom_recentlyRemoved (db : DB) (room : String) :
    ((getUsersInRoom db room).1).recentlyRemoved = db.recentlyRemoved := by
  simp only [getUsersInRoom, getUsersInRoomRedis]
  split
  · split <;> rfl
  · rfl

@[simp] theorem getUsersInRoom_nextTok (db : DB) (room : String) :
    ((getUsersInRoom db room).1).nextTok = db.nextTok := by
  simp only [getUsersInRoom, getUsersInRoomRedis]
  split
  · split <;> rfl
  · rfl

theorem getUsersInRoom_roomUsers_ne (db : DB) (room r' : String) (h : r' ≠ normRoom room) :
    lookupA ((getUsersInRoom db room).1).roomUsers r' = lookupA db.roomUsers r' := by
  simp only [getUsersInRoom, getUsersInRoomRedis]
  split
  · split
    · rfl
    · exact lookupA_setA_ne _ _ _ _ (fun he => h he.symm)
  · rfl

theorem checkRoomCapacity_state (db : DB) (room : String) :
    (checkRoomCapacity db room).1 = (getUsersInRoom db room).1 := rfl

theorem getRoomCount_state (db : DB) (room : String) :
    (getRoomCount db room).1 = (getUsersInRoom db room).1 := rfl

theorem getRoomCount_val (db : DB) (room : String) :
    (getRoomCount db room).2 = (getUsersInRoom db room).2.length := rfl

/-- A member list returned by `getUsersInRoom` survives filtering: every kept
id is usable. -/
theorem filter_userUsable_idem (users : List (String × UserRec)) (ids : List String) :
    (ids.filter (userUsable users)).filter (userUsable users) = ids.filter (userUsable users) := by
  rw [List.filter_filter]
  apply List.filter_congr
  intro a _
  cases userUsable users a <;> simp

theorem gurR_list (db : DB) (r : String) :
    (getUsersInRoomRedis db r).2 =
      ((roomIds db r).filter (userUsable db.users)).filterMap (fun i => lookupA db.users i) := by
  simp only [getUsersInRoomRedis]

theorem gurR_users (db : DB) (r : String) :
    ((getUsersInRoomRedis db r).1).users = db.users := by
  simp only [getUsersInRoomRedis]
  split <;> rfl

theorem gurR_redisOn (db : DB) (r : String) :
    ((getUsersInRoomRedis db r).1).redisOn = db.redisOn := by
  simp only [getUsersInRoomRedis]
  split <;> rfl

theorem gurR_roomIds (db : DB) (r : String) :
    roomIds (getUsersInRoomRedis db r).1 r = (roomIds db r).filter (userUsable db.users) := by
  simp only [getUsersInRoomRedis]
  split
  · next hk => exact hk.symm
  · simp [roomIds]

/-- Reading a room's members is idempotent: the lazy stale-id cleanup happens
at most once, after which the read is pure. -/
theorem gurR_idem (db : DB) (r : String) :
    getUsersInRoomRedis (getUsersInRoomRedis db r).1 r = getUsersInRoomRedis db r := by
  have h1 := gurR_roomIds db r
  have h2 := gurR_users db r
  have h3 := gurR_list db r
  generalize hp : getUsersInRoomRedis db r = p at h1 h2 h3
  obtain ⟨db', out⟩ := p
  simp only at h1 h2 h3
  simp [getUsersInRoomRedis, h1, h2, filter_userUsable_idem, h3]

theorem getUsersInRoom_state_idem (db : DB) (room : String) :
    getUsersInRoom (getUsersInRoom db room).1 room = getUsersInRoom db room := by
  by_cases hc : db.redisOn = true
  · have hc2 : ((getUsersInRoomRedis db (normRoom room)).1).redisOn = true := by
      rw [gurR_redisOn]; exact hc
    simp only [getUsersInRoom, hc, if_true, hc2]
    exact gurR_idem db (normRoom room)
  · simp [getUsersInRoom, hc]

theorem mem_keys_setA {α : Type} {l : List (String × α)} {k x : String} {v : α}
    (h : x ∈ (setA l k v).map Prod.fst) : x = k ∨ x ∈ l.map Prod.fst := by
  rcases List.mem_map.mp h with ⟨e, he, hx⟩
  rcases mem_setA he with h' | h'
  · subst h'
    exact Or.inl hx.symm
  · exact Or.inr (List.mem_map.mpr ⟨e, h', hx⟩)

theorem nodup_keys_setA {α : Type} {l : List (String × α)} {k : String} {v : α}
    (h : (l.map Prod.fst).Nodup) : ((setA l k v).map Prod.fst).Nodup := by
  induction l with
  | nil => simp [setA]
  | cons hd tl ih =>
      obtain ⟨k₀, v₀⟩ := hd
      simp only [List.map_cons, List.nodup_cons] at h
      by_cases h₀ : k₀ = k
      · subst h₀
        show ((setA ((k₀, v₀) :: tl) k₀ v).map Prod.fst).Nodup
        rw [setA, if_pos rfl]
        simp only [List.map_cons, List.nodup_cons]
        exact h
      · simp only [setA, if_neg h₀, List.map_cons, List.nodup_cons]
        refine ⟨fun hmem => ?_, ih h.2⟩
        rcases mem_keys_setA hmem with h' | h'
        · exact h₀ h'
        · exact h.1 h'

/-! ## C9 — empty-after-normalization validation -/

/-- C9 counterexample input: the whitespace-only username `" "`. -/
def c9db : DB := initDB true

/-- C9 (counterexample): `addUser` checks `!username || !room` *before*
trimming, so a whitespace-only username passes validation, is normalized to
the empty string, and a session with an empty normalized username is
created — the call does not fail with `InvalidInput`. -/
theorem c9_counterexample :
    normUsername " " = "" ∧
    (addUser c9db "s1" " " "ROOM1" none false).2 =
      AddResult.ok ⟨"s1", "", "ROOM1"⟩ false none ∧
    lookupA ((addUser c9db "s1" " " "ROOM1" none false).1).users "s1" =
      some ⟨"s1", "", "ROOM1"⟩ := by decide

/-- C9 (amended): `addUser` fails with `InvalidInput` — leaving the state
unchanged — exactly when the username or roomId is empty *as supplied*
(before normalization); values that are non-empty but normalize to empty
pass the check. -/
theorem c9_theorem (db : DB) (id username room : String) (tok : Option Nat) (ra : Bool) :
    ((addUser db id username room tok ra).2 = .err .invalidInput ↔
      (username = "" ∨ room = "")) ∧
    ((username = "" ∨ room = "") → (addUser db id username room tok ra).1 = db) := by
  by_cases h : username = "" ∨ room = ""
  · simp [addUser, h]
  · simp only [addUser, if_neg h]
    refine ⟨⟨fun hres => absurd ?_ h, fun hres => absurd hres h⟩, fun hres => absurd hres h⟩
    exfalso
    revert hres
    split
    · -- in-memory path
      simp only [addUserInMemory]
      split
      · simp
      · split
        · split <;> simp
        · split <;> simp
    · -- Redis path
      split
      · simp
      · split
        · simp
        · simp [addUserCommit]

/-- C9 witness: the amended theorem evaluated at the empty username. -/
theorem c9_witness :
    ((addUser c9db "s1" "" "ROOM1" none false).2 = .err .invalidInput ↔
      ("" = "" ∨ "ROOM1" = "")) ∧
    (("" = "" ∨ "ROOM1" = "") → (addUser c9db "s1" "" "ROOM1" none false).1 = c9db) :=
  c9_theorem c9db "s1" "" "ROOM1" none false

/-! ## C7 — one session per connection / eviction on re-register -/

/-- C7 counterexample input: `s1` is a member of `ROOMA`, then joins `ROOMB`. -/
def c7db : DB :=
  { initDB true with
    users := [("s1", ⟨"s1", "alice", "ROOMA"⟩)],
    roomUsers := [("ROOMA", ["s1"])],
    roomMeta := [("ROOMA", ⟨true, none, none, false⟩)] }

/-- C7 (counterexample): `addUser` on an already-registered connectionId does
*not* evict the prior membership — after `s1` joins `ROOMB`, `s1` is still in
`ROOMA`'s member set and is still enumerated (and counted) as a member of
`ROOMA`. -/
theorem c7_counterexample :
    (addUser c7db "s1" "alice" "ROOMB" none false).2 =
      AddResult.ok ⟨"s1", "alice", "ROOMB"⟩ false none ∧
    lookupA ((addUser c7db "s1" "alice" "ROOMB" none false).1).roomUsers "ROOMA" =
      some ["s1"] ∧
    lookupA ((addUser c7db "s1" "alice" "ROOMB" none false).1).roomUsers "ROOMB" =
      some ["s1"] ∧
    (getUsersInRoom (addUser c7db "s1" "alice" "ROOMB" none false).1 "ROOMA").2 =
      [⟨"s1", "alice", "ROOMB"⟩] := by decide

/-- On the durable path `addUser` never touches any other room's member
set — the prior room's membership entry survives unevicted. -/
theorem addUser_roomUsers_other (db : DB) (id username room : String) (tok : Option Nat)
    (ra : Bool) (hconn : db.redisOn = true) (hr : normRoom room = room) (r' : String)
    (hne : r' ≠ room) :
    lookupA ((addUser db id username room tok ra).1).roomUsers r' =
      lookupA db.roomUsers r' := by
  have hrr : normRoom (normRoom room) = room := by rw [hr, hr]
  have hdb1 : lookupA ((getUsersInRoom db (normRoom room)).1).roomUsers r' =
      lookupA db.roomUsers r' :=
    getUsersInRoom_roomUsers_ne db (normRoom room) r' (by rw [hrr]; exact hne)
  have hkey : normRoom room ≠ r' := by rw [hr]; exact hne.symm
  by_cases h : username = "" ∨ room = ""
  · simp [addUser, h]
  · simp only [addUser, if_neg h, hconn, Bool.true_eq_false, if_false]
    split
    · rw [checkRoomCapacity_state]; exact hdb1
    · split
      · rw [checkRoomCapacity_state]; exact hdb1
      · simp only [addUserCommit]
        rw [lookupA_setA_ne _ _ _ _ hkey, checkRoomCapacity_state]
        exact hdb1

/-- On the durable path `addUser` preserves at-most-one-session-per-
connectionId: the `user:<id>` hash write is an upsert, so distinct hash keys
stay distinct. -/
theorem addUser_users_nodup (db : DB) (id username room : String) (tok : Option Nat)
    (ra : Bool) (hconn : db.redisOn = true)
    (hnodup : (db.users.map Prod.fst).Nodup) :
    (((addUser db id username room tok ra).1).users.map Prod.fst).Nodup := by
  have husers : ((checkRoomCapacity db (normRoom room)).1).users = db.users := by
    rw [checkRoomCapacity_state, getUsersInRoom_users]
  by_cases h : username = "" ∨ room = ""
  · simpa [addUser, h] using hnodup
  · simp only [addUser, if_neg h, hconn, Bool.true_eq_false, if_false]
    split
    · simpa [husers] using hnodup
    · split
      · simpa [husers] using hnodup
      · simp only [addUserCommit]
        exact nodup_keys_setA (husers ▸ hnodup)

/-- C7 (amended): `AddMember` on an already-registered connectionId does not
evict the prior session's room membership — every other room's member set is
untouched (the stale entry persists) — while the session store itself keeps
at most one `user:<id>` hash per connectionId because the write is an
upsert. -/
theorem c7_theorem (db : DB) (id username room : String) (tok : Option Nat) (ra : Bool)
    (hconn : db.redisOn = true) (hr : normRoom room = room) (r' : String) (hne : r' ≠ room)
    (hnodup : (db.users.map Prod.fst).Nodup) :
    lookupA ((addUser db id username room tok ra).1).roomUsers r' =
      lookupA db.roomUsers r' ∧
    (((addUser db id username room tok ra).1).users.map Prod.fst).Nodup :=
  ⟨addUser_roomUsers_other db id username room tok ra hconn hr r' hne,
   addUser_users_nodup db id username room tok ra hconn hnodup⟩

/-- C7 witness: the amended theorem evaluated on `c7db` (`s1` re-registers
from `ROOMA` into `ROOMB`). -/
theorem c7_witness :
    (c7db.redisOn = true ∧ normRoom "ROOMB" = "ROOMB" ∧ ("ROOMA" : String) ≠ "ROOMB" ∧
      (c7db.users.map Prod.fst).Nodup) ∧
    (lookupA ((addUser c7db "s1" "alice" "ROOMB" none false).1).roomUsers "ROOMA" =
        lookupA c7db.roomUsers "ROOMA" ∧
      (((addUser c7db "s1" "alice" "ROOMB" none false).1).users.map Prod.fst).Nodup) :=
  ⟨⟨by decide, by decide, by decide, by decide⟩,
   c7_theorem c7db "s1" "alice" "ROOMB" none false (by decide) (by decide) "ROOMA"
     (by decide) (by decide)⟩

/-! ## C1 — capacity enforcement -/

/-- All ids kept by the usability filter map to an existing hash, so the
member list is as long as the filtered id list. -/
theorem length_filterMap_of_usable (users : List (String × UserRec)) :
    ∀ l : List String, (∀ i ∈ l, userUsable users i = true) →
      (l.filterMap (fun i => lookupA users i)).length = l.length := by
  intro l
  induction l with
  | nil => simp
  | cons i tl ih =>
      intro hall
      have hi := hall i (List.mem_cons_self _ _)
      unfold userUsable at hi
      cases hl : lookupA users i with
      | none => rw [hl] at hi; simp at hi
      | some u =>
          have := ih (fun j hj => hall j (List.mem_cons_of_mem _ hj))
          simp [List.filterMap_cons, hl, this]

theorem sAddStr_length (l : List String) (x : String) :
    (sAddStr l x).length ≤ l.length + 1 := by
  unfold sAddStr
  split
  · omega
  · simp

/-- The returned member list measures the filtered id list exactly. -/
theorem getUsersInRoom_len (db : DB) (room : String) (hconn : db.redisOn = true) :
    (getUsersInRoom db room).2.length =
      ((roomIds db (normRoom room)).filter (userUsable db.users)).length := by
  simp only [getUsersInRoom, hconn, if_true, gurR_list]
  exact length_filterMap_of_usable db.users _ (fun i hi => List.of_mem_filter hi)

/-- Reading a room after `addUserCommit` on it yields at most one more member
than the committing state's id set held. -/
theorem commit_read_len (db1 : DB) (id uname r : String) (tok : Option Nat) (ra : Bool)
    (hconn : db1.redisOn = true) (hrr : normRoom r = r) :
    (getUsersInRoom (addUserCommit db1 id uname r tok ra).1 r).2.length ≤
      (roomIds db1 r).length + 1 := by
  have hOn : ((addUserCommit db1 id uname r tok ra).1).redisOn = true := by
    simp only [addUserCommit]; exact hconn
  have hids : roomIds (addUserCommit db1 id uname r tok ra).1 r =
      sAddStr (roomIds db1 r) id := by
    simp only [addUserCommit, roomIds, lookupA_setA_self, Option.getD_some]
  calc (getUsersInRoom (addUserCommit db1 id uname r tok ra).1 r).2.length
      ≤ (roomIds (addUserCommit db1 id uname r tok ra).1 (normRoom r)).length := by
        simp only [getUsersInRoom, hOn, if_true, gurR_list]
        exact le_trans (List.length_filterMap_le _ _) (List.length_filter_le _ _)
    _ = (sAddStr (roomIds db1 r) id).length := by rw [hrr, hids]
    _ ≤ (roomIds db1 r).length + 1 := sAddStr_length _ _

/-- C1 counterexample input: the in-memory fallback already holds
`CAPACITY_DEFAULT = 50` members of the regular room `ROOMA`. -/
def c1db : DB :=
  { initDB false with
    memUsers := (List.range 50).map (fun n => ⟨Nat.repr n, "u" ++ Nat.repr n, "ROOMA"⟩),
    memRooms := [("ROOMA", ⟨50, none, none, false, []⟩)] }

/-- C1 (counterexample): on the in-memory fallback path there is no capacity
check at all — the 51st `AddMember` on a regular room holding 50 members
succeeds and membership reaches 51 > capacity. -/
theorem c1_counterexample :
    CAPACITY_DEFAULT = 50 ∧ isLocRoom "ROOMA" = false ∧ c1db.redisOn = false ∧
    (getUsersInRoom c1db "ROOMA").2.length = 50 ∧
    (addUser c1db "s50" "newbie" "ROOMA" none false).2 =
      AddResult.ok ⟨"s50", "newbie", "ROOMA"⟩ false none ∧
    (getUsersInRoom (addUser c1db "s50" "newbie" "ROOMA" none false).1 "ROOMA").2.length =
      51 := by decide

/-- C1 (amended): on the durable (Redis-connected) path, `addUser` enforces
the target room's capacity: a call on a room at (or beyond) capacity fails
with `RoomFull` and leaves the member list unchanged, and any call preserves
`|members| ≤ capacity(roomId)` for its target room.  (The in-memory fallback
path performs no capacity check — see the counterexample.) -/
theorem c1_theorem (db : DB) (id username room : String) (tok : Option Nat) (ra : Bool)
    (hconn : db.redisOn = true) (hr : normRoom room = room) :
    ((getUsersInRoom db room).2.length ≥ roomCap room → username ≠ "" → room ≠ "" →
      addUser db id username room tok ra =
        ((getUsersInRoom db room).1, .err (.roomFull (roomCap room))) ∧
      (getUsersInRoom (addUser db id username room tok ra).1 room).2 =
        (getUsersInRoom db room).2) ∧
    ((getUsersInRoom db room).2.length ≤ roomCap room →
      (getUsersInRoom (addUser db id username room tok ra).1 room).2.length ≤
        roomCap room) := by
  constructor
  · intro hfull hu hro
    have hval : ¬(username = "" ∨ room = "") := by
      rintro (h | h) <;> [exact hu h; exact hro h]
    have hres : addUser db id username room tok ra =
        ((getUsersInRoom db room).1, .err (.roomFull (roomCap room))) := by
      simp only [addUser, if_neg hval, hconn, Bool.true_eq_false, if_false, hr]
      rw [if_pos]
      · rfl
      · simp only [checkRoomCapacity, decide_eq_true_eq]
        exact hfull
    refine ⟨hres, ?_⟩
    rw [hres]
    have := getUsersInRoom_state_idem db room
    rw [this]
  · intro hle
    by_cases hval : username = "" ∨ room = ""
    · simp only [addUser, if_pos hval]
      exact hle
    · simp only [addUser, if_neg hval, hconn, Bool.true_eq_false, if_false, hr]
      by_cases hfull : (checkRoomCapacity db room).2.isFull = true
      · rw [if_pos hfull]
        have h1 : (checkRoomCapacity db room).1 = (getUsersInRoom db room).1 :=
          checkRoomCapacity_state db room
        simp only [h1]
        rw [getUsersInRoom_state_idem db room]
        exact hle
      · rw [if_neg hfull]
        have hlt : (getUsersInRoom db room).2.length < roomCap room := by
          simp only [checkRoomCapacity, decide_eq_true_eq] at hfull
          omega
        have h1 : (checkRoomCapacity db room).1 = (getUsersInRoom db room).1 :=
          checkRoomCapacity_state db room
        split
        · rw [h1, getUsersInRoom_state_idem db room]
          exact hle
        · have hOn1 : ((getUsersInRoom db room).1).redisOn = true := by
            rw [getUsersInRoom_redisOn]; exact hconn
          have hkeep : (roomIds (getUsersInRoom db room).1 room).length =
              (getUsersInRoom db room).2.length := by
            have h2 := gurR_roomIds db (normRoom room)
            rw [hr] at h2
            have h3 : (getUsersInRoom db room).1 = (getUsersInRoomRedis db room).1 := by
              simp only [getUsersInRoom, hconn, if_true, hr]
            rw [h3, h2, getUsersInRoom_len db room hconn, hr]
          have := commit_read_len ((getUsersInRoom db room).1) id (normUsername username)
            room tok ra hOn1 hr
          rw [h1]
          omega

/-- C1 witness: the amended theorem evaluated on a concrete full room. -/
def c1wdb : DB :=
  { initDB true with
    users := [("a", ⟨"a", "ua", "R1"⟩), ("b", ⟨"b", "ub", "R1"⟩)],
    roomUsers := [("R1", ["a", "b"])],
    roomMeta := [("R1", ⟨true, none, none, false⟩)] }

theorem c1_witness :
    (c1wdb.redisOn = true ∧ normRoom "R1" = "R1" ∧
      (getUsersInRoom c1wdb "R1").2.length ≤ roomCap "R1") ∧
    (getUsersInRoom (addUser c1wdb "c" "uc" "R1" none false).1 "R1").2.length ≤
      roomCap "R1" :=
  ⟨⟨by decide, by decide, by decide⟩,
   (c1_theorem c1wdb "c" "uc" "R1" none false (by decide) (by decide)).2 (by decide)⟩

/-! ## C8 — duplicate-username rejection and per-room username uniqueness -/

/-- C8 counterexample input: a full regular room (50 members) one of whom is
named `u0`. -/
def c8db : DB :=
  { initDB true with
    users := (List.range 50).map
      (fun n => (Nat.repr n, ⟨Nat.repr n, "u" ++ Nat.repr n, "ROOMA"⟩)),
    roomUsers := [("ROOMA", (List.range 50).map Nat.repr)],
    roomMeta := [("ROOMA", ⟨true, none, none, false⟩)] }

/-- C8 (counterexample): the capacity check runs before the duplicate-
username check, so an `addUser` whose normalized username collides with an
existing member of a room that is also full fails with `RoomFull`, not with
`UsernameTaken`. -/
theorem c8_counterexample :
    ((getUsersInRoom c8db "ROOMA").2.map (fun u => u.username)).contains "u0" = true ∧
    normUsername "u0" = "u0" ∧
    (getUsersInRoom c8db "ROOMA").2.length = 50 ∧
    (addUser c8db "s50" "u0" "ROOMA" none false).2 = .err (.roomFull 50) ∧
    (addUser c8db "s50" "u0" "ROOMA" none false).2 ≠ .err .usernameTaken := by decide

/-- The duplicate scan fires whenever some member enumerated for the target
room carries the incoming normalized username. -/
theorem dupNameCheck_of_mem (db : DB) (room : String) (uname : String) (u' : UserRec)
    (hconn : db.redisOn = true) (hr : normRoom room = room)
    (hmem : u' ∈ (getUsersInRoom db room).2) (hname : u'.username = uname) :
    dupNameCheck (getUsersInRoom db room).1 uname room = true := by
  simp only [getUsersInRoom, hconn, if_true, hr] at hmem ⊢
  rw [gurR_list] at hmem
  rcases List.mem_filterMap.mp hmem with ⟨i, hi, hlook⟩
  have hids : roomIds (getUsersInRoomRedis db room).1 room =
      (roomIds db room).filter (userUsable db.users) := gurR_roomIds db room
  have husers : ((getUsersInRoomRedis db room).1).users = db.users := gurR_users db room
  unfold dupNameCheck
  rw [hids, husers]
  apply List.any_eq_true.mpr
  refine ⟨i, hi, ?_⟩
  rw [hlook]
  simp [hname]

/-- C8 (amended), part 1: below capacity, `addUser` on a room with an
existing member carrying the same normalized username fails with
`UsernameTaken` and leaves the room's member list unchanged. -/
theorem c8_dup_rejected (db : DB) (id username room : String) (tok : Option Nat) (ra : Bool)
    (hconn : db.redisOn = true) (hr : normRoom room = room)
    (hu : username ≠ "") (hro : room ≠ "")
    (hnotfull : (getUsersInRoom db room).2.length < roomCap room)
    (u' : UserRec) (hmem : u' ∈ (getUsersInRoom db room).2)
    (hname : u'.username = normUsername username) :
    addUser db id username room tok ra = ((getUsersInRoom db room).1, .err .usernameTaken) ∧
    (getUsersInRoom (addUser db id username room tok ra).1 room).2 =
      (getUsersInRoom db room).2 := by
  have hval : ¬(username = "" ∨ room = "") := by
    rintro (h | h) <;> [exact hu h; exact hro h]
  have hdup := dupNameCheck_of_mem db room (normUsername username) u' hconn hr hmem hname
  have hres : addUser db id username room tok ra =
      ((getUsersInRoom db room).1, .err .usernameTaken) := by
    simp only [addUser, if_neg hval, hconn, Bool.true_eq_false, if_false, hr]
    rw [if_neg, if_pos]
    · rw [checkRoomCapacity_state]
    · rw [checkRoomCapacity_state]
      exact hdup
    · simp only [checkRoomCapacity, decide_eq_true_eq]
      omega
  refine ⟨hres, ?_⟩
  rw [hres]
  have := getUsersInRoom_state_idem db room
  rw [this]

/-- One comparison of the per-room uniqueness relation: the stored hashes of
two member ids must not both sit in room `r` with equal usernames. -/
def namePairOK (users : List (String × UserRec)) (r i j : String) : Bool :=
  match lookupA users i, lookupA users j with
  | some u, some v =>
      !(decide (u.room = r) && decide (v.room = r) && decide (u.username = v.username))
  | _, _ => true

/-- Username uniqueness among the concurrently present members of one room's
member set (plus the set property of the id list itself). -/
def roomNamesOK (users : List (String × UserRec)) (r : String) (ids : List String) : Prop :=
  ids.Nodup ∧ ids.Pairwise (fun i j => namePairOK users r i j = true)

/-- Username uniqueness for every room of the durable store. -/
def redisNamesOK (db : DB) : Prop :=
  ∀ e ∈ db.roomUsers, roomNamesOK db.users e.1 ((lookupA db.roomUsers e.1).getD [])

/-- Username uniqueness for the in-memory fallback store. -/
def memNamesOK (db : DB) : Prop :=
  db.memUsers.Pairwise (fun u v => u.room = v.room → u.username ≠ v.username)

instance (users : List (String × UserRec)) (r : String) (ids : List String) :
    Decidable (roomNamesOK users r ids) :=
  inferInstanceAs (Decidable (_ ∧ _))

instance (db : DB) : Decidable (redisNamesOK db) :=
  inferInstanceAs (Decidable (∀ e ∈ db.roomUsers, _))

instance (db : DB) : Decidable (memNamesOK db) :=
  inferInstanceAs (Decidable (List.Pairwise _ _))

theorem redisNamesOK_lookup {db : DB} {r : String} {ids : List String}
    (h : redisNamesOK db) (hl : lookupA db.roomUsers r = some ids) :
    roomNamesOK db.users r ids := by
  have := h (r, ids) (lookupA_mem hl)
  simpa [hl] using this

theorem namePairOK_other_users {users : List (String × UserRec)} {id : String} {rec0 : UserRec}
    {r' i j : String} (hi : i ≠ id) (hj : j ≠ id) :
    namePairOK (setA users id rec0) r' i j = namePairOK users r' i j := by
  unfold namePairOK
  rw [lookupA_setA_ne _ _ _ _ (Ne.symm hi), lookupA_setA_ne _ _ _ _ (Ne.symm hj)]

theorem namePairOK_newuser_room_ne {users : List (String × UserRec)} {cid uname r r' : String}
    (hne : r ≠ r') (x : String) :
    namePairOK (setA users cid ⟨cid, uname, r⟩) r' cid x = true ∧
    namePairOK (setA users cid ⟨cid, uname, r⟩) r' x cid = true := by
  constructor
  · unfold namePairOK
    rw [lookupA_setA_self]
    cases lookupA (setA users cid ⟨cid, uname, r⟩) x with
    | none => rfl
    | some v => simp [hne]
  · unfold namePairOK
    rw [lookupA_setA_self]
    cases lookupA (setA users cid ⟨cid, uname, r⟩) x with
    | none => rfl
    | some v => simp [hne]

/-- Mutating the session of `id` to a different room `r` cannot break
uniqueness in any room `r' ≠ r`. -/
theorem roomNamesOK_users_set_other {users : List (String × UserRec)} {cid uname r r' : String}
    {ids : List String} (hne : r ≠ r') (h : roomNamesOK users r' ids) :
    roomNamesOK (setA users cid ⟨cid, uname, r⟩) r' ids := by
  refine ⟨h.1, h.2.imp ?_⟩
  intro a b hab
  by_cases ha : a = cid
  · rw [ha]
    exact (namePairOK_newuser_room_ne hne b).1
  · by_cases hb : b = cid
    · rw [hb]
      exact (namePairOK_newuser_room_ne hne a).2
    · rw [namePairOK_other_users ha hb]
      exact hab

theorem sAddStr_nodup {l : List String} {x : String} (h : l.Nodup) : (sAddStr l x).Nodup := by
  unfold sAddStr
  split
  · exact h
  · next hx => simp [List.nodup_append, h, hx]

/-- Unpacking a failed duplicate scan: no member of the room's set stores the
incoming username. -/
theorem dupNameCheck_false {db1 : DB} {uname r : String}
    (h : dupNameCheck db1 uname r = false) :
    ∀ i ∈ roomIds db1 r, ∀ u, lookupA db1.users i = some u → u.username ≠ uname := by
  intro i hi u hu
  unfold dupNameCheck at h
  have := List.any_eq_false.mp h i hi
  rw [hu] at this
  simpa using this

/-- Committing a checked member into room `r` keeps that room's usernames
unique. -/
theorem roomNamesOK_commit {users1 : List (String × UserRec)} {existing : List String}
    {cid uname r : String}
    (hcheck : ∀ i ∈ existing, ∀ u, lookupA users1 i = some u → u.username ≠ uname)
    (hok : roomNamesOK users1 r existing) :
    roomNamesOK (setA users1 cid ⟨cid, uname, r⟩) r (sAddStr existing cid) := by
  have hcross : ∀ x ∈ existing, x ≠ cid →
      namePairOK (setA users1 cid ⟨cid, uname, r⟩) r x cid = true ∧
      namePairOK (setA users1 cid ⟨cid, uname, r⟩) r cid x = true := by
    intro x hx hxid
    have hlx : lookupA (setA users1 cid ⟨cid, uname, r⟩) x = lookupA users1 x :=
      lookupA_setA_ne _ _ _ _ (Ne.symm hxid)
    constructor
    · unfold namePairOK
      rw [hlx, lookupA_setA_self]
      cases hu : lookupA users1 x with
      | none => rfl
      | some u =>
          have hne := hcheck x hx u hu
          simp [hne, Ne.symm hne]
    · unfold namePairOK
      rw [hlx, lookupA_setA_self]
      cases hu : lookupA users1 x with
      | none => rfl
      | some u =>
          have hne := hcheck x hx u hu
          simp [hne, Ne.symm hne]
  refine ⟨sAddStr_nodup hok.1, ?_⟩
  unfold sAddStr
  split
  · next hmem =>
      -- cid already a member: the id list is unchanged, only cid's hash moved
      have hknd : List.Pairwise (fun a b => a ≠ b ∧ namePairOK users1 r a b = true) existing :=
        List.Pairwise.and hok.1 hok.2
      refine hknd.imp_of_mem ?_
      intro a b ha hb hab
      obtain ⟨hne_ab, hold⟩ := hab
      by_cases hA : a = cid
      · rw [hA]
        have hB : b ≠ cid := fun h => hne_ab (hA.trans h.symm)
        exact (hcross b hb hB).2
      · by_cases hB : b = cid
        · rw [hB]
          exact (hcross a ha hA).1
        · rw [namePairOK_other_users hA hB]
          exact hold
  · next hmem =>
      rw [List.pairwise_append]
      refine ⟨hok.2.imp_of_mem ?_, List.pairwise_singleton _ _, ?_⟩
      · intro a b ha hb hab
        have hA : a ≠ cid := fun h => hmem (h ▸ ha)
        have hB : b ≠ cid := fun h => hmem (h ▸ hb)
        rw [namePairOK_other_users hA hB]
        exact hab
      · intro a ha b hb
        rw [List.mem_singleton] at hb
        rw [hb]
        have hA : a ≠ cid := fun h => hmem (h ▸ ha)
        exact (hcross a ha hA).1

theorem roomNamesOK_sublist {users : List (String × UserRec)} {r : String}
    {ids ids' : List String} (hsub : List.Sublist ids' ids) (h : roomNamesOK users r ids) :
    roomNamesOK users r ids' :=
  ⟨h.1.sublist hsub, h.2.sublist hsub⟩

theorem redisNamesOK_of_eq {db db' : DB} (hu : db'.users = db.users)
    (hr : db'.roomUsers = db.roomUsers) (h : redisNamesOK db) : redisNamesOK db' := by
  unfold redisNamesOK at *
  rw [hu, hr]
  exact h

theorem memNamesOK_of_eq {db db' : DB} (hm : db'.memUsers = db.memUsers)
    (h : memNamesOK db) : memNamesOK db' := by
  unfold memNamesOK at *
  rw [hm]
  exact h

/-- The lazy stale-id cleanup can only shrink a member set, so it preserves
per-room username uniqueness. -/
theorem getUsersInRoom_namesOK (db : DB) (room : String) (h : redisNamesOK db) :
    redisNamesOK (getUsersInRoom db room).1 := by
  by_cases hc : db.redisOn = true
  · simp only [getUsersInRoom, hc, if_true, getUsersInRoomRedis]
    split
    · exact h
    · intro e he
      rcases mem_setA he with he' | he'
      · rw [he']
        simp only [lookupA_setA_self, Option.getD_some]
        cases hl : lookupA db.roomUsers (normRoom room) with
        | none => simp [roomIds, hl, roomNamesOK]
        | some ids0 =>
            have hold := redisNamesOK_lookup h hl
            exact roomNamesOK_sublist (by rw [roomIds, hl]; exact List.filter_sublist _) hold
      · by_cases hkey : e.1 = normRoom room
        · rw [hkey]
          simp only [lookupA_setA_self, Option.getD_some]
          cases hl : lookupA db.roomUsers (normRoom room) with
          | none => simp [roomIds, hl, roomNamesOK]
          | some ids0 =>
              have hold := redisNamesOK_lookup h hl
              exact roomNamesOK_sublist (by rw [roomIds, hl]; exact List.filter_sublist _) hold
        · rw [lookupA_setA_ne _ _ _ _ (fun hk => hkey hk.symm)]
          exact h e he'
  · simp only [getUsersInRoom, hc]
    simp at hc
    simp only [hc, Bool.false_eq_true, if_false]
    exact h

theorem addUserCommit_memUsers (db1 : DB) (cid uname r : String) (tok : Option Nat)
    (ra : Bool) : ((addUserCommit db1 cid uname r tok ra).1).memUsers = db1.memUsers := rfl

/-- `addUserCommit` keeps every room's usernames unique, given the failed
duplicate scan for its target room. -/
theorem addUserCommit_namesOK (db1 : DB) (cid uname r : String) (tok : Option Nat) (ra : Bool)
    (hchk : dupNameCheck db1 uname r = false) (h : redisNamesOK db1) :
    redisNamesOK (addUserCommit db1 cid uname r tok ra).1 := by
  have hcheck := dupNameCheck_false hchk
  intro e he
  simp only [addUserCommit] at he ⊢
  rcases mem_setA he with he' | he'
  · rw [he']
    simp only [lookupA_setA_self, Option.getD_some]
    apply roomNamesOK_commit hcheck
    cases hl : lookupA db1.roomUsers r with
    | none => simp [roomIds, hl, roomNamesOK]
    | some ids1 =>
        have := redisNamesOK_lookup h hl
        rw [roomIds, hl]
        exact this
  · by_cases hkey : e.1 = r
    · rw [hkey]
      simp only [lookupA_setA_self, Option.getD_some]
      apply roomNamesOK_commit hcheck
      cases hl : lookupA db1.roomUsers r with
      | none => simp [roomIds, hl, roomNamesOK]
      | some ids1 =>
          have := redisNamesOK_lookup h hl
          rw [roomIds, hl]
          exact this
    · rw [lookupA_setA_ne _ _ _ _ (fun hk => hkey hk.symm)]
      exact roomNamesOK_users_set_other (fun hk => hkey hk.symm) (h e he')

theorem addUserInMemory_users (db : DB) (cid u r : String) (tok : Option Nat) (ra : Bool) :
    ((addUserInMemory db cid u r tok ra).1).users = db.users := by
  simp only [addUserInMemory]
  split
  · rfl
  · split
    · split <;> rfl
    · split <;> rfl

theorem addUserInMemory_roomUsers (db : DB) (cid u r : String) (tok : Option Nat) (ra : Bool) :
    ((addUserInMemory db cid u r tok ra).1).roomUsers = db.roomUsers := by
  simp only [addUserInMemory]
  split
  · rfl
  · split
    · split <;> rfl
    · split <;> rfl

/-- The in-memory duplicate scan guards the in-memory append, so the fallback
store's per-room usernames stay unique as well. -/
theorem addUserInMemory_memNamesOK (db : DB) (cid u r : String) (tok : Option Nat) (ra : Bool)
    (h : memNamesOK db) : memNamesOK (addUserInMemory db cid u r tok ra).1 := by
  simp only [addUserInMemory]
  split
  · exact h
  · next hdup =>
      have hcross : ∀ v ∈ db.memUsers, v.room = normRoom r → v.username ≠ normUsername u := by
        intro v hv hroom hname
        apply hdup
        refine List.any_eq_true.mpr ⟨v, hv, ?_⟩
        simp [hroom, hname]
      have happ : List.Pairwise (fun a b : UserRec => a.room = b.room → a.username ≠ b.username)
          (db.memUsers ++ [⟨cid, normUsername u, normRoom r⟩]) := by
        rw [List.pairwise_append]
        refine ⟨h, List.pairwise_singleton _ _, ?_⟩
        intro a ha b hb
        rw [List.mem_singleton] at hb
        rw [hb]
        intro hroom
        exact hcross a ha hroom
      split
      · split <;> exact happ
      · split <;> exact happ

/-- C8 (amended): per-room normalized-username uniqueness is an invariant of
`addUser` on both store paths, and — *below capacity* — an `addUser` whose
normalized username collides with an enumerated member of the target room
fails with `UsernameTaken`, leaving the member list unchanged.  (At capacity
the capacity check fires first and the call fails with `RoomFull` instead —
see the counterexample.) -/
theorem c8_theorem :
    (∀ (db : DB) (cid username room : String) (tok : Option Nat) (ra : Bool),
      redisNamesOK db → memNamesOK db →
      redisNamesOK (addUser db cid username room tok ra).1 ∧
      memNamesOK (addUser db cid username room tok ra).1) ∧
    (∀ (db : DB) (cid username room : String) (tok : Option Nat) (ra : Bool) (u' : UserRec),
      db.redisOn = true → normRoom room = room → username ≠ "" → room ≠ "" →
      (getUsersInRoom db room).2.length < roomCap room →
      u' ∈ (getUsersInRoom db room).2 → u'.username = normUsername username →
      addUser db cid username room tok ra =
        ((getUsersInRoom db room).1, .err .usernameTaken) ∧
      (getUsersInRoom (addUser db cid username room tok ra).1 room).2 =
        (getUsersInRoom db room).2) := by
  constructor
  · intro db cid username room tok ra hre hme
    by_cases hval : username = "" ∨ room = ""
    · simp only [addUser, if_pos hval]
      exact ⟨hre, hme⟩
    · simp only [addUser, if_neg hval]
      split
      · -- in-memory path
        refine ⟨redisNamesOK_of_eq (addUserInMemory_users _ _ _ _ _ _)
          (addUserInMemory_roomUsers _ _ _ _ _ _) hre, ?_⟩
        exact addUserInMemory_memNamesOK _ _ _ _ _ _ hme
      · -- Redis path
        have h1re : redisNamesOK (checkRoomCapacity db (normRoom room)).1 := by
          rw [checkRoomCapacity_state]
          exact getUsersInRoom_namesOK db (normRoom room) hre
        have h1me : memNamesOK (checkRoomCapacity db (normRoom room)).1 := by
          apply memNamesOK_of_eq _ hme
          rw [checkRoomCapacity_state, getUsersInRoom_memUsers]
        split
        · exact ⟨h1re, h1me⟩
        · split
          · exact ⟨h1re, h1me⟩
          · next hdup =>
              rw [Bool.not_eq_true] at hdup
              refine ⟨addUserCommit_namesOK _ _ _ _ _ _ hdup h1re, ?_⟩
              exact memNamesOK_of_eq (addUserCommit_memUsers _ _ _ _ _ _) h1me
  · intro db cid username room tok ra u' hconn hr hu hro hnotfull hmem hname
    exact c8_dup_rejected db cid username room tok ra hconn hr hu hro hnotfull u' hmem hname

/-- C8 witness: both parts of the amended theorem evaluated on a concrete
two-member room (`c1wdb` holds `ua`, `ub` in `R1`). -/
theorem c8_witness :
    (redisNamesOK c1wdb ∧ memNamesOK c1wdb ∧
      redisNamesOK (addUser c1wdb "c" "ub" "R1" none false).1 ∧
      memNamesOK (addUser c1wdb "c" "ub" "R1" none false).1) ∧
    (c1wdb.redisOn = true ∧ normRoom "R1" = "R1" ∧
      (getUsersInRoom c1wdb "R1").2.length < roomCap "R1" ∧
      (⟨"b", "ub", "R1"⟩ : UserRec) ∈ (getUsersInRoom c1wdb "R1").2 ∧
      addUser c1wdb "c" "ub" "R1" none false =
        ((getUsersInRoom c1wdb "R1").1, .err .usernameTaken)) := by
  have h1 := (c8_theorem.1 c1wdb "c" "ub" "R1" none false (by decide) (by decide))
  have h2 := (c8_theorem.2 c1wdb "c" "ub" "R1" none false ⟨"b", "ub", "R1"⟩ (by decide)
    (by decide) (by decide) (by decide) (by decide) (by decide) (by decide))
  exact ⟨⟨by decide, by decide, h1.1, h1.2⟩,
    ⟨by decide, by decide, by decide, by decide, h2.1⟩⟩

/-! ## C2 — the admin-approval gate -/

theorem isRoomAdminRequired_frame (db : DB) (room r' : String) :
    isRoomAdminRequired (getUsersInRoom db room).1 r' = isRoomAdminRequired db r' := by
  unfold isRoomAdminRequired
  rw [getUsersInRoom_redisOn, getUsersInRoom_roomMeta, getUsersInRoom_memRooms]

/-- C2: a join lands in the pending (Requested) state *iff* the room has an
admin, has at least one counted member, is not a location room, the supplied
token does not match the room's current admin token, and the room's
`requireAdmin` flag is set; in every other case the handler calls `addUser`
directly (yielding `failed` or `joined`, never `pending`). -/
theorem c2_theorem (db : DB) (sid username room : String) (tok : Option Nat) (ra : Bool)
    (now : Nat) :
    (joinOp db sid username room tok ra now).2.2 = .pending ↔
      ((getRoomAdmin db room).isSome = true ∧ (getUsersInRoom db room).2.length > 0 ∧
       isLocRoom room = false ∧
       (match tok, getRoomAdminToken db room with
        | some t, some t2 => decide (t = t2)
        | _, _ => false) = false ∧
       isRoomAdminRequired db room = true) := by
  have hframe : isRoomAdminRequired (getRoomCount db room).1 room =
      isRoomAdminRequired db room := by
    rw [getRoomCount_state]
    exact isRoomAdminRequired_frame db room room
  simp only [joinOp, getRoomCount_val, hframe]
  split
  · next hgate =>
      simp only [true_iff]
      exact hgate
  · next hgate =>
      constructor
      · intro hres
        exfalso
        revert hres
        cases haddr : addUser (getRoomCount db room).1 sid username room tok ra with
        | mk db2 res =>
            cases res with
            | err e => simp
            | ok user isAdmin retTok => simp
      · intro hrhs
        exact absurd hrhs hgate

/-- C2 witness input: `R1` has admin `a` (token 7), one member, and
`requireAdmin` set; `b` joins without a token. -/
def c2db : DB :=
  { initDB true with
    users := [("a", ⟨"a", "ua", "R1"⟩)],
    roomUsers := [("R1", ["a"])],
    roomMeta := [("R1", ⟨true, some 7, some "a", true⟩)] }

theorem c2_witness :
    ((getRoomAdmin c2db "R1").isSome = true ∧ (getUsersInRoom c2db "R1").2.length > 0 ∧
      isLocRoom "R1" = false ∧
      (match (none : Option Nat), getRoomAdminToken c2db "R1" with
       | some t, some t2 => decide (t = t2)
       | _, _ => false) = false ∧
      isRoomAdminRequired c2db "R1" = true) ∧
    (joinOp c2db "b" "ub" "R1" none false 0).2.2 = .pending :=
  ⟨by decide, (c2_theorem c2db "b" "ub" "R1" none false 0).mpr (by decide)⟩

/-! ## C6 — idempotent removal -/

@[simp] theorem transferAdmin_recentlyRemoved (db : DB) (room newId : String) :
    ((transferAdmin db room newId).1).recentlyRemoved = db.recentlyRemoved := by
  simp only [transferAdmin]
  split
  · split <;> rfl
  · rfl

@[simp] theorem clearPendingUsers_recentlyRemoved (db : DB) (room : String) :
    (clearPendingUsers db room).recentlyRemoved = db.recentlyRemoved := by
  simp only [clearPendingUsers]
  split
  · split <;> rfl
  · rfl

@[simp] theorem scheduleRoomCleanup_recentlyRemoved (db : DB) (room : String) (now : Nat) :
    (scheduleRoomCleanup db room now).recentlyRemoved = db.recentlyRemoved := rfl

@[simp] theorem getRoomInfoM_recentlyRemoved (db : DB) (room : String) :
    (getRoomInfoM db room).recentlyRemoved = db.recentlyRemoved := by
  simp only [getRoomInfoM, checkRoomCapacity_state, getUsersInRoom_recentlyRemoved]

@[simp] theorem handleUserLeaving_recentlyRemoved (db : DB) (sid : String) (u : UserRec)
    (now : Nat) :
    ((handleUserLeaving db sid u now).1).recentlyRemoved = db.recentlyRemoved := by
  simp only [handleUserLeaving]
  repeat' split
  all_goals simp

@[simp] theorem removeUserInMemory_recentlyRemoved (db : DB) (sid : String) :
    ((removeUserInMemory db sid).1).recentlyRemoved = db.recentlyRemoved := by
  simp only [removeUserInMemory]
  split
  · rfl
  · split
    · split <;> rfl
    · rfl

@[simp] theorem removeUser_recentlyRemoved (db : DB) (sid : String) :
    ((removeUser db sid).1).recentlyRemoved = db.recentlyRemoved := by
  simp only [removeUser]
  split
  · simp
  · split
    · simp
    · split
      · simp
      · split
        · split <;> rfl
        · rfl

/-- After a processed leave, the connection's duplicate-suppression marker is
set (either it was already set, or the handler just added it). -/
theorem leaveOp_marker (db : DB) (sid : String) (now : Nat) :
    sid ∈ ((leaveOp db sid now).1).recentlyRemoved := by
  simp only [leaveOp]
  split
  · next h => exact h
  · cases hrm : removeUser { db with recentlyRemoved := sid :: db.recentlyRemoved } sid with
    | mk db1 uOpt =>
        have h1 : db1.recentlyRemoved = sid :: db.recentlyRemoved := by
          have := removeUser_recentlyRemoved
            { db with recentlyRemoved := sid :: db.recentlyRemoved } sid
          rw [hrm] at this
          exact this
        cases uOpt with
        | none => simp [h1]
        | some u =>
            simp only
            rw [handleUserLeaving_recentlyRemoved, h1]
            exact List.mem_cons_self _ _

/-- With no in-memory session for the id, the in-memory removal finds
nothing and changes nothing. -/
theorem removeUserInMemory_none (db : DB) (sid : String)
    (hmem : ∀ x ∈ db.memUsers, x.id ≠ sid) :
    removeUserInMemory db sid = (db, none) := by
  simp only [removeUserInMemory]
  have hfind : db.memUsers.find? (fun u => u.id = sid) = none := by
    apply List.find?_eq_none.mpr
    intro x hx
    simpa using hmem x hx
  rw [hfind]

@[simp] theorem removeUser_redisOn (db : DB) (sid : String) :
    ((removeUser db sid).1).redisOn = db.redisOn := by
  simp only [removeUser, removeUserInMemory]
  split
  · split
    · rfl
    · split
      · split <;> rfl
      · rfl
  · split
    · split
      · rfl
      · split
        · split <;> rfl
        · rfl
    · split
      · split
        · rfl
        · split
          · split <;> rfl
          · rfl
      · split
        · split <;> rfl
        · rfl

theorem removeUser_memUsers (db : DB) (sid : String)
    (hmem : ∀ x ∈ db.memUsers, x.id ≠ sid) :
    ((removeUser db sid).1).memUsers = db.memUsers := by
  have hin := removeUserInMemory_none db sid hmem
  simp only [removeUser]
  split
  · rw [hin]
  · split
    · rw [hin]
    · split
      · rw [hin]
      · split
        · split <;> rfl
        · rfl

/-- After any `removeUser`, either nothing was removed or the removed id's
hash is gone. -/
theorem removeUser_post (db : DB) (sid : String)
    (hmem : ∀ x ∈ db.memUsers, x.id ≠ sid) :
    (removeUser db sid).2 = none ∨ lookupA ((removeUser db sid).1).users sid = none := by
  simp only [removeUser]
  split
  · rw [removeUserInMemory_none db sid hmem]
    exact Or.inl rfl
  · split
    · rw [removeUserInMemory_none db sid hmem]
      exact Or.inl rfl
    · split
      · rw [removeUserInMemory_none db sid hmem]
        exact Or.inl rfl
      · exact Or.inr (lookupA_delA_self _ _)

/-- The second delete of a session is a manager-level no-op: the hash is
gone, and (absent an in-memory session for the id) the fallback finds nothing
either. -/
theorem removeUser_idem (db : DB) (sid : String) (db1 : DB) (u : UserRec)
    (hconn : db.redisOn = true) (hmem : ∀ x ∈ db.memUsers, x.id ≠ sid)
    (hfirst : removeUser db sid = (db1, some u)) :
    removeUser db1 sid = (db1, none) := by
  have hOn : db1.redisOn = true := by
    have h := removeUser_redisOn db sid
    rw [hfirst] at h
    rw [h]
    exact hconn
  have hMem : db1.memUsers = db.memUsers := by
    have h := removeUser_memUsers db sid hmem
    rw [hfirst] at h
    exact h
  have hNone : lookupA db1.users sid = none := by
    rcases removeUser_post db sid hmem with h | h
    · rw [hfirst] at h
      exact absurd h (by simp)
    · rw [hfirst] at h
      exact h
  have hmem1 : ∀ x ∈ db1.memUsers, x.id ≠ sid := by
    rw [hMem]
    exact hmem
  have hin1 := removeUserInMemory_none db1 sid hmem1
  simp only [removeUser, hOn, Bool.true_eq_false, if_false, hNone]
  exact hin1

/-- C6: removing the same connectionId twice decrements membership exactly
once and the second removal is a silent no-op.  Part 1: at the manager level
the second `removeUser` returns `null` and leaves the state untouched.
Part 2: a processed leave always leaves the duplicate-suppression marker set.
Part 3: with the marker set, a racing `leaveRoom` or `disconnect` emits no
events, performs no removal, no admin handoff and no teardown arming — the
`disconnect` handler merely consumes the marker. -/
theorem c6_theorem :
    (∀ (db : DB) (sid : String) (db1 : DB) (u : UserRec),
      db.redisOn = true → (∀ x ∈ db.memUsers, x.id ≠ sid) →
      removeUser db sid = (db1, some u) → removeUser db1 sid = (db1, none)) ∧
    (∀ (db : DB) (sid : String) (now : Nat),
      sid ∈ ((leaveOp db sid now).1).recentlyRemoved) ∧
    (∀ (db' : DB) (sid : String) (now2 : Nat), sid ∈ db'.recentlyRemoved →
      leaveOp db' sid now2 = (db', []) ∧
      disconnectOp db' sid now2 =
        ({ db' with recentlyRemoved := eraseStr db'.recentlyRemoved sid }, [])) := by
  refine ⟨?_, leaveOp_marker, ?_⟩
  · intro db sid db1 u hconn hmem hfirst
    exact removeUser_idem db sid db1 u hconn hmem hfirst
  · intro db' sid now2 hmark
    constructor
    · simp only [leaveOp, if_pos hmark]
    · simp only [disconnectOp, if_pos hmark]

/-- C6 witness: on a concrete two-member room, the double removal of `a` and
the marker-suppressed second leave/disconnect. -/
theorem c6_witness :
    (c1wdb.redisOn = true ∧
      removeUser c1wdb "a" = ((removeUser c1wdb "a").1, some ⟨"a", "ua", "R1"⟩) ∧
      removeUser (removeUser c1wdb "a").1 "a" = ((removeUser c1wdb "a").1, none)) ∧
    ("a" : String) ∈ ((leaveOp c1wdb "a" 0).1).recentlyRemoved ∧
    (leaveOp (leaveOp c1wdb "a" 0).1 "a" 5 = ((leaveOp c1wdb "a" 0).1, []) ∧
      disconnectOp (leaveOp c1wdb "a" 0).1 "a" 5 =
        ({ (leaveOp c1wdb "a" 0).1 with
           recentlyRemoved := eraseStr ((leaveOp c1wdb "a" 0).1).recentlyRemoved "a" }, [])) :=
  ⟨⟨by decide, by decide,
    c6_theorem.1 c1wdb "a" (removeUser c1wdb "a").1 ⟨"a", "ua", "R1"⟩ (by decide) (by decide)
      (by decide)⟩,
   c6_theorem.2.1 c1wdb "a" 0,
   c6_theorem.2.2 (leaveOp c1wdb "a" 0).1 "a" 5 (c6_theorem.2.1 c1wdb "a" 0)⟩

/-! ## C5 — empty-room teardown lifecycle -/

theorem setA_setA {α : Type} (l : List (String × α)) (k : String) (v1 v2 : α) :
    setA (setA l k v1) k v2 = setA l k v2 := by
  induction l with
  | nil => simp [setA]
  | cons hd tl ih =>
      obtain ⟨k₀, v₀⟩ := hd
      by_cases h : k₀ = k
      · simp [setA, h]
      · simp [setA, h, ih]

/-- Arming stores the grace-period expiry under the room's key. -/
theorem scheduleRoomCleanup_lookup (db : DB) (room : String) (now : Nat) :
    lookupA (scheduleRoomCleanup db room now).timers (normRoom room) =
      some (now + ROOM_CLEANUP_DELAY) := by
  simp [scheduleRoomCleanup]

/-- Re-arming replaces the armed timer rather than stacking a second one. -/
theorem scheduleRoomCleanup_replace (db : DB) (room : String) (t1 t2 : Nat) :
    (scheduleRoomCleanup (scheduleRoomCleanup db room t1) room t2).timers =
      (scheduleRoomCleanup db room t2).timers := by
  simp [scheduleRoomCleanup, setA_setA]

/-- Firing on a re-verified-empty room deletes its pending queue, meta,
member set, retained messages, in-memory record and timer entry. -/
theorem fireRoomCleanup_empty (db : DB) (r : String) (hconn : db.redisOn = true)
    (hr : normRoom r = r) (hempty : (getUsersInRoom db r).2 = []) :
    lookupA (fireRoomCleanup db r).roomMeta r = none ∧
    lookupA (fireRoomCleanup db r).roomUsers r = none ∧
    lookupA (fireRoomCleanup db r).roomPending r = none ∧
    lookupA (fireRoomCleanup db r).roomMessages r = none ∧
    lookupA (fireRoomCleanup db r).memRooms r = none ∧
    lookupA (fireRoomCleanup db r).timers r = none := by
  have hOn2 : ((getUsersInRoom db r).1).redisOn = true := by
    rw [getUsersInRoom_redisOn]; exact hconn
  simp only [fireRoomCleanup, hr, hempty, List.length_nil, if_pos rfl, clearRoomMessages, hOn2,
    Bool.true_eq_false, if_false, if_true]
  refine ⟨?_, ?_, ?_, ?_, ?_, ?_⟩ <;> simp

/-- The member list read depends only on the store mode, the session hashes,
the member sets and the fallback user array. -/
theorem getUsersInRoom_list_congr (db' db : DB) (room : String)
    (h1 : db'.redisOn = db.redisOn) (h2 : db'.users = db.users)
    (h3 : db'.roomUsers = db.roomUsers) (h4 : db'.memUsers = db.memUsers) :
    (getUsersInRoom db' room).2 = (getUsersInRoom db room).2 := by
  have hroom : ∀ x, roomIds db' x = roomIds db x := fun x => by unfold roomIds; rw [h3]
  by_cases hc : db.redisOn = true
  · simp only [getUsersInRoom, h1, hc, if_true, gurR_list, h2, hroom]
  · have hc' : db.redisOn = false := by simpa using hc
    simp [getUsersInRoom, h1, hc', h4]

/-- Firing on a room that re-verified non-empty tears nothing down: only the
consumed timer entry (and lazily cleaned stale ids) change, and the member
list is intact. -/
theorem fireRoomCleanup_nonempty (db : DB) (r : String) (hr : normRoom r = r)
    (hne : (getUsersInRoom db r).2 ≠ []) :
    (fireRoomCleanup db r).roomMeta = db.roomMeta ∧
    (fireRoomCleanup db r).roomPending = db.roomPending ∧
    (fireRoomCleanup db r).roomMessages = db.roomMessages ∧
    (getUsersInRoom (fireRoomCleanup db r) r).2 = (getUsersInRoom db r).2 := by
  have hlen : ¬((getUsersInRoom db r).2.length = 0) := by
    intro h
    exact hne (List.length_eq_zero.mp h)
  simp only [fireRoomCleanup, hr, if_neg hlen]
  refine ⟨by simp, by simp, by simp, ?_⟩
  have hfix := getUsersInRoom_state_idem db r
  calc (getUsersInRoom { (getUsersInRoom db r).1 with
          timers := delA ((getUsersInRoom db r).1).timers r } r).2
      = (getUsersInRoom (getUsersInRoom db r).1 r).2 :=
        getUsersInRoom_list_congr _ _ r rfl rfl rfl rfl
    _ = (getUsersInRoom db r).2 := by rw [hfix]

@[simp] theorem getRoomInfoM_timers (db : DB) (room : String) :
    (getRoomInfoM db room).timers = db.timers := by
  simp [getRoomInfoM, checkRoomCapacity_state, getUsersInRoom_timers]

/-- A successful `addUser` reports the normalized session record. -/
theorem addUser_ok_room {db : DB} {cid username room : String} {tok : Option Nat} {ra : Bool}
    {db2 : DB} {u : UserRec} {adm : Bool} {rtok : Option Nat}
    (h : addUser db cid username room tok ra = (db2, .ok u adm rtok)) :
    u = ⟨cid, normUsername username, normRoom room⟩ := by
  revert h
  simp only [addUser]
  split
  · intro h
    exact absurd (congrArg Prod.snd h) (by simp)
  · split
    · -- in-memory path: it normalizes the already-normalized inputs again
      simp only [addUserInMemory]
      split
      · intro h
        exact absurd (congrArg Prod.snd h) (by simp)
      · split
        · split <;>
            (intro h
             have h2 := congrArg Prod.snd h
             simp only at h2
             injection h2 with e1 e2 e3
             rw [← e1, normUsername_idem, normRoom_idem])
        · split <;>
            (intro h
             have h2 := congrArg Prod.snd h
             simp only at h2
             injection h2 with e1 e2 e3
             rw [← e1, normUsername_idem, normRoom_idem])
    · split
      · intro h
        exact absurd (congrArg Prod.snd h) (by simp)
      · split
        · intro h
          exact absurd (congrArg Prod.snd h) (by simp)
        · simp only [addUserCommit]
          intro h
          have h2 := congrArg Prod.snd h
          simp only at h2
          injection h2 with e1 e2 e3
          rw [← e1]

/-- A join that completes always leaves the target room's cleanup timer
disarmed, so the armed teardown cannot fire. -/
theorem joinOp_joined_cancels (db : DB) (sid username room : String) (tok : Option Nat)
    (ra : Bool) (now : Nat) (b : Bool) (rtok : Option Nat)
    (h : (joinOp db sid username room tok ra now).2.2 = .joined b rtok) :
    lookupA ((joinOp db sid username room tok ra now).1).timers (normRoom room) = none := by
  revert h
  simp only [joinOp]
  split
  · intro h
    exact absurd h (by simp)
  · cases haddr : addUser (getRoomCount db room).1 sid username room tok ra with
    | mk db2 res =>
        cases res with
        | err e =>
            intro h
            exact absurd h (by simp)
        | ok u adm rtok' =>
            intro _
            have hroom : u.room = normRoom room := by rw [addUser_ok_room haddr]
            simp only [getUsersInRoom_timers, getRoomInfoM_timers, cancelRoomCleanup, hroom,
              normRoom_idem]
            exact lookupA_delA_self _ _

/-- When the last member leaves, the room's teardown timer is armed with the
grace delay, the pending queue is cleared, and the room reads empty. -/
theorem leaveOp_last_arms (db : DB) (sid uA R : String) (now : Nat)
    (hconn : db.redisOn = true) (hR : normRoom R = R) (hRne : R ≠ "")
    (hmark : sid ∉ db.recentlyRemoved)
    (hu : lookupA db.users sid = some ⟨sid, uA, R⟩) (huA : uA ≠ "")
    (hids : lookupA db.roomUsers R = some [sid]) :
    lookupA ((leaveOp db sid now).1).timers R = some (now + ROOM_CLEANUP_DELAY) ∧
    lookupA ((leaveOp db sid now).1).roomPending R = none ∧
    (getUsersInRoom (leaveOp db sid now).1 R).2 = [] := by
  have hrm : removeUser { db with recentlyRemoved := sid :: db.recentlyRemoved } sid =
      ({ db with users := delA db.users sid,
                 roomUsers := setA db.roomUsers R [],
                 recentlyRemoved := sid :: db.recentlyRemoved }, some ⟨sid, uA, R⟩) := by
    simp [removeUser, hconn, hu, huA, hRne, hids, eraseStr]
  simp only [leaveOp, if_neg hmark, hrm]
  set db1 : DB := { db with users := delA db.users sid,
                            roomUsers := setA db.roomUsers R [],
                            recentlyRemoved := sid :: db.recentlyRemoved } with hdb1
  have hOn1 : db1.redisOn = true := hconn
  have hread : getUsersInRoom db1 R = (db1, []) := by
    simp [getUsersInRoom, hR, hOn1, hconn, getUsersInRoomRedis, roomIds, hdb1]
  have hinfo : getRoomInfoM db1 R = db1 := by
    simp [getRoomInfoM, hread, checkRoomCapacity_state]
  simp only [handleUserLeaving, hinfo, hread]
  simp only [List.length_nil, gt_iff_lt, Nat.lt_irrefl, false_and, and_false, if_false,
    if_pos rfl]
  have hclear : clearPendingUsers db1 R = { db1 with roomPending := delA db1.roomPending R } := by
    simp only [clearPendingUsers, hR]
    rw [if_neg (by rw [hOn1]; simp)]
  refine ⟨?_, ?_, ?_⟩
  · simp [scheduleRoomCleanup, hR, hclear]
  · simp only [scheduleRoomCleanup, hR, hclear]
    exact lookupA_delA_self _ _
  · have hc : ∀ x : DB, x.redisOn = db1.redisOn → x.users = db1.users →
        x.roomUsers = db1.roomUsers → x.memUsers = db1.memUsers →
        (getUsersInRoom x R).2 = [] := by
      intro x e1 e2 e3 e4
      rw [getUsersInRoom_list_congr x db1 R e1 e2 e3 e4, hread]
    apply hc <;> simp [scheduleRoomCleanup, hclear]

/-- C5: the empty-room teardown lifecycle.  (1) Arming stores the
grace-period expiry for the room; (2) re-arming replaces the timer instead of
stacking; (3) when the last member leaves, the timer is armed and the pending
queue cleared; (4) a completed join leaves the room's timer disarmed, so a
fire at the original expiry is a no-op and the room still has its state;
(5) a fire that re-verifies the room empty deletes its pending entries,
metadata, member set, retained messages and timer; (6) a fire on a room that
re-verified non-empty deletes nothing. -/
theorem c5_theorem :
    (∀ (db : DB) (room : String) (now : Nat),
      lookupA (scheduleRoomCleanup db room now).timers (normRoom room) =
        some (now + ROOM_CLEANUP_DELAY)) ∧
    (∀ (db : DB) (room : String) (t1 t2 : Nat),
      (scheduleRoomCleanup (scheduleRoomCleanup db room t1) room t2).timers =
        (scheduleRoomCleanup db room t2).timers) ∧
    (∀ (db : DB) (sid uA R : String) (now : Nat),
      db.redisOn = true → normRoom R = R → R ≠ "" → sid ∉ db.recentlyRemoved →
      lookupA db.users sid = some ⟨sid, uA, R⟩ → uA ≠ "" →
      lookupA db.roomUsers R = some [sid] →
      lookupA ((leaveOp db sid now).1).timers R = some (now + ROOM_CLEANUP_DELAY) ∧
      lookupA ((leaveOp db sid now).1).roomPending R = none ∧
      (getUsersInRoom (leaveOp db sid now).1 R).2 = []) ∧
    (∀ (db : DB) (sid username room : String) (tok : Option Nat) (ra : Bool) (now : Nat)
      (b : Bool) (rtok : Option Nat),
      (joinOp db sid username room tok ra now).2.2 = .joined b rtok →
      lookupA ((joinOp db sid username room tok ra now).1).timers (normRoom room) = none ∧
      fireTimerOp (joinOp db sid username room tok ra now).1 (normRoom room) =
        (joinOp db sid username room tok ra now).1) ∧
    (∀ (db : DB) (r : String), db.redisOn = true → normRoom r = r →
      (getUsersInRoom db r).2 = [] →
      lookupA (fireRoomCleanup db r).roomMeta r = none ∧
      lookupA (fireRoomCleanup db r).roomUsers r = none ∧
      lookupA (fireRoomCleanup db r).roomPending r = none ∧
      lookupA (fireRoomCleanup db r).roomMessages r = none ∧
      lookupA (fireRoomCleanup db r).memRooms r = none ∧
      lookupA (fireRoomCleanup db r).timers r = none) ∧
    (∀ (db : DB) (r : String), normRoom r = r → (getUsersInRoom db r).2 ≠ [] →
      (fireRoomCleanup db r).roomMeta = db.roomMeta ∧
      (fireRoomCleanup db r).roomPending = db.roomPending ∧
      (fireRoomCleanup db r).roomMessages = db.roomMessages ∧
      (getUsersInRoom (fireRoomCleanup db r) r).2 = (getUsersInRoom db r).2) := by
  refine ⟨scheduleRoomCleanup_lookup, scheduleRoomCleanup_replace, leaveOp_last_arms,
    ?_, fireRoomCleanup_empty, fireRoomCleanup_nonempty⟩
  intro db sid username room tok ra now b rtok h
  have hnone := joinOp_joined_cancels db sid username room tok ra now b rtok h
  refine ⟨hnone, ?_⟩
  simp [fireTimerOp, hnone]

/-- C5 witness inputs: a one-member room about to empty, and an already-empty
room with an armed timer, pending entries, metadata and messages. -/
def c5db : DB :=
  { initDB true with
    users := [("a", ⟨"a", "ua", "R1"⟩)],
    roomUsers := [("R1", ["a"])],
    roomMeta := [("R1", ⟨true, none, none, false⟩)],
    roomPending := [("R1", [⟨"p", "up"⟩])],
    roomMessages := [("R1", [1, 2])] }

def c5empty : DB :=
  { initDB true with
    roomUsers := [("R1", [])],
    roomMeta := [("R1", ⟨true, none, none, false⟩)],
    roomPending := [("R1", [⟨"p", "up"⟩])],
    roomMessages := [("R1", [1, 2])],
    timers := [("R1", 600000)] }

theorem c5_witness :
    (lookupA (scheduleRoomCleanup c5db "R1" 0).timers (normRoom "R1") =
      some (0 + ROOM_CLEANUP_DELAY)) ∧
    ((scheduleRoomCleanup (scheduleRoomCleanup c5db "R1" 3) "R1" 9).timers =
      (scheduleRoomCleanup c5db "R1" 9).timers) ∧
    (lookupA ((leaveOp c5db "a" 0).1).timers "R1" = some (0 + ROOM_CLEANUP_DELAY) ∧
      lookupA ((leaveOp c5db "a" 0).1).roomPending "R1" = none ∧
      (getUsersInRoom (leaveOp c5db "a" 0).1 "R1").2 = []) ∧
    ((joinOp c5db "c" "uc" "R1" none false 7).2.2 = JoinOutcome.joined false none ∧
      lookupA ((joinOp c5db "c" "uc" "R1" none false 7).1).timers (normRoom "R1") = none ∧
      fireTimerOp (joinOp c5db "c" "uc" "R1" none false 7).1 (normRoom "R1") =
        (joinOp c5db "c" "uc" "R1" none false 7).1) ∧
    (lookupA (fireRoomCleanup c5empty "R1").roomMeta "R1" = none ∧
      lookupA (fireRoomCleanup c5empty "R1").roomPending "R1" = none ∧
      lookupA (fireRoomCleanup c5empty "R1").roomMessages "R1" = none ∧
      lookupA (fireRoomCleanup c5empty "R1").timers "R1" = none) ∧
    ((fireRoomCleanup c5db "R1").roomMeta = c5db.roomMeta ∧
      (getUsersInRoom (fireRoomCleanup c5db "R1") "R1").2 =
        (getUsersInRoom c5db "R1").2) := by
  have h1 := c5_theorem.1 c5db "R1" 0
  have h2 := c5_theorem.2.1 c5db "R1" 3 9
  have h3 := c5_theorem.2.2.1 c5db "a" "ua" "R1" 0 (by decide) (by decide) (by decide)
    (by decide) (by decide) (by decide) (by decide)
  have h4 := c5_theorem.2.2.2.1 c5db "c" "uc" "R1" none false 7 false none (by decide)
  have h5 := c5_theorem.2.2.2.2.1 c5empty "R1" (by decide) (by decide) (by decide)
  have h6 := c5_theorem.2.2.2.2.2 c5db "R1" (by decide) (by decide)
  exact ⟨h1, h2, h3, ⟨by decide, h4.1, h4.2⟩,
    ⟨h5.1, h5.2.2.1, h5.2.2.2.1, h5.2.2.2.2.2⟩, ⟨h6.1, h6.2.2.2⟩⟩

/-! ## C10 — admin only with the admin-control flag -/

/-- Inductive strengthening of the claimed invariant for a durable-store room
meta hash: the presence of *either* admin field forces both the
`requireAdmin` flag and an established `createdAt`. -/
def metaOK (m : RoomMeta) : Prop :=
  (m.adminSocketId.isSome = true ∨ m.adminToken.isSome = true) →
    (m.requireAdmin = true ∧ m.createdAt = true)

/-- The same strengthening for an in-memory room record. -/
def memRoomOK (rd : MemRoom) : Prop :=
  (rd.adminSocketId.isSome = true ∨ rd.adminToken.isSome = true) → rd.requireAdmin = true

/-- The system-wide admin invariant over both stores. -/
def adminInv (db : DB) : Prop :=
  (∀ e ∈ db.roomMeta, metaOK e.2) ∧ (∀ e ∈ db.memRooms, memRoomOK e.2)

instance (m : RoomMeta) : Decidable (metaOK m) := inferInstanceAs (Decidable (_ → _))
instance (rd : MemRoom) : Decidable (memRoomOK rd) := inferInstanceAs (Decidable (_ → _))
instance (db : DB) : Decidable (adminInv db) := inferInstanceAs (Decidable (_ ∧ _))

theorem metaOK_default : metaOK defaultMeta := by decide

theorem forall_setA {α : Type} {P : α → Prop} {l : List (String × α)} {k : String} {v : α}
    (hl : ∀ e ∈ l, P e.2) (hv : P v) : ∀ e ∈ setA l k v, P e.2 := by
  intro e he
  rcases mem_setA he with h | h
  · rw [h]
    exact hv
  · exact hl e h

theorem forall_delA {α : Type} {P : α → Prop} {l : List (String × α)} {k : String}
    (hl : ∀ e ∈ l, P e.2) : ∀ e ∈ delA l k, P e.2 :=
  fun e he => hl e (mem_delA he)

theorem adminInv_of_eq {db db' : DB} (h1 : db'.roomMeta = db.roomMeta)
    (h2 : db'.memRooms = db.memRooms) (h : adminInv db) : adminInv db' := by
  unfold adminInv at *
  rw [h1, h2]
  exact h

theorem adminInv_getUsersInRoom (db : DB) (room : String) (h : adminInv db) :
    adminInv (getUsersInRoom db room).1 :=
  adminInv_of_eq (getUsersInRoom_roomMeta db room) (getUsersInRoom_memRooms db room) h

/-- The meta step of `addUser` produces an invariant-respecting hash. -/
theorem metaOK_addUserMetaStep (m0 : RoomMeta) (isLoc : Bool) (cid : String)
    (tok : Option Nat) (ra : Bool) (fresh : Nat) (h0 : metaOK m0) :
    metaOK (addUserMetaStep m0 isLoc cid tok ra fresh).1 := by
  unfold addUserMetaStep
  split
  · next hnew =>
      have hnone : m0.adminSocketId = none ∧ m0.adminToken = none := by
        by_cases hs : m0.adminSocketId.isSome = true ∨ m0.adminToken.isSome = true
        · have := (h0 hs).2
          rw [hnew] at this
          exact absurd this (by simp)
        · push_neg at hs
          constructor
          · cases hv : m0.adminSocketId with
            | none => rfl
            | some x => rw [hv] at hs; simp at hs
          · cases hv : m0.adminToken with
            | none => rfl
            | some x => rw [hv] at hs; simp at hs
      split
      · intro hsome
        rcases hsome with hs | hs
        · simp only [hnone.1] at hs
          simp at hs
        · simp only [hnone.2] at hs
          simp at hs
      · intro _
        exact ⟨rfl, rfl⟩
  · next hold =>
      have hcre : m0.createdAt = true := by
        cases hc : m0.createdAt with
        | false => exact absurd hc hold
        | true => rfl
      cases htok : tok with
      | none => exact h0
      | some t =>
          cases htok2 : m0.adminToken with
          | none => exact h0
          | some t2 =>
              dsimp only
              by_cases hcond : isLoc = false ∧ t = t2
              · rw [if_pos hcond]
                intro _
                exact ⟨(h0 (Or.inr (by rw [htok2]; rfl))).1, hcre⟩
              · rw [if_neg hcond]
                exact h0

theorem adminInv_addUserCommit (db1 : DB) (cid uname r : String) (tok : Option Nat)
    (ra : Bool) (h : adminInv db1) : adminInv (addUserCommit db1 cid uname r tok ra).1 := by
  simp only [addUserCommit]
  constructor
  · apply forall_setA h.1
    apply metaOK_addUserMetaStep
    cases hl : lookupA db1.roomMeta r with
    | none => exact metaOK_default
    | some m => exact h.1 (r, m) (lookupA_mem hl)
  · exact h.2

theorem adminInv_addUserInMemory (db : DB) (cid u r : String) (tok : Option Nat) (ra : Bool)
    (h : adminInv db) : adminInv (addUserInMemory db cid u r tok ra).1 := by
  simp only [addUserInMemory]
  split
  · exact h
  · split
    · split
      · exact ⟨h.1, forall_setA h.2 (by decide)⟩
      · refine ⟨h.1, forall_setA h.2 ?_⟩
        intro _
        rfl
    · next rd hl =>
        split
        · next hcond =>
            refine ⟨h.1, forall_setA h.2 ?_⟩
            intro _
            have hrdok : memRoomOK rd := h.2 _ (lookupA_mem hl)
            apply hrdok
            right
            rcases hcond.2.1 with htok
            cases htk : tok with
            | none => rw [htk] at htok; simp at htok
            | some t =>
                rw [hcond.2.2, htk]
                rfl
        · refine ⟨h.1, forall_setA h.2 ?_⟩
          have hrdok : memRoomOK rd := h.2 _ (lookupA_mem hl)
          intro hs
          exact hrdok hs

theorem adminInv_addUser (db : DB) (cid username room : String) (tok : Option Nat) (ra : Bool)
    (h : adminInv db) : adminInv (addUser db cid username room tok ra).1 := by
  by_cases hval : username = "" ∨ room = ""
  · simp only [addUser, if_pos hval]
    exact h
  · simp only [addUser, if_neg hval]
    split
    · exact adminInv_addUserInMemory _ _ _ _ _ _ h
    · have h1 : adminInv (checkRoomCapacity db (normRoom room)).1 := by
        rw [checkRoomCapacity_state]
        exact adminInv_getUsersInRoom db (normRoom room) h
      split
      · exact h1
      · split
        · exact h1
        · exact adminInv_addUserCommit _ _ _ _ _ _ h1

theorem adminInv_removeUserInMemory (db : DB) (sid : String) (h : adminInv db) :
    adminInv (removeUserInMemory db sid).1 := by
  simp only [removeUserInMemory]
  split
  · exact h
  · split
    · split
      · next rd hl =>
          refine ⟨h.1, forall_setA h.2 ?_⟩
          have hrdok : memRoomOK rd := h.2 _ (lookupA_mem hl)
          intro hs
          exact hrdok hs
      · exact h
    · exact h

theorem adminInv_removeUser (db : DB) (sid : String) (h : adminInv db) :
    adminInv (removeUser db sid).1 := by
  simp only [removeUser]
  split
  · exact adminInv_removeUserInMemory _ _ h
  · split
    · exact adminInv_removeUserInMemory _ _ h
    · split
      · exact adminInv_removeUserInMemory _ _ h
      · refine ⟨?_, ?_⟩
        · intro e he
          apply h.1
          revert he
          split
          · split <;> exact fun he => he
          · exact fun he => he
        · intro e he
          apply h.2
          revert he
          split
          · split <;> exact fun he => he
          · exact fun he => he

theorem adminInv_addPendingUser (db : DB) (room : String) (p : PendingUser)
    (h : adminInv db) : adminInv (addPendingUser db room p) := by
  simp only [addPendingUser]
  split
  · split
    · refine ⟨h.1, forall_setA h.2 ?_⟩
      intro hs
      simp at hs
    · next rd hl =>
        refine ⟨h.1, forall_setA h.2 ?_⟩
        have hrdok : memRoomOK rd := h.2 _ (lookupA_mem hl)
        intro hs
        exact hrdok hs
  · exact ⟨h.1, h.2⟩

theorem adminInv_removePendingUser (db : DB) (room sid : String) (h : adminInv db) :
    adminInv (removePendingUser db room sid).1 := by
  simp only [removePendingUser]
  split
  · split
    · next rd hl =>
        split
        · refine ⟨h.1, forall_setA h.2 ?_⟩
          have hrdok : memRoomOK rd := h.2 _ (lookupA_mem hl)
          intro hs
          exact hrdok hs
        · exact h
    · exact h
  · split
    · exact ⟨h.1, h.2⟩
    · exact h

theorem adminInv_clearPendingUsers (db : DB) (room : String) (h : adminInv db) :
    adminInv (clearPendingUsers db room) := by
  simp only [clearPendingUsers]
  split
  · split
    · next rd hl =>
        refine ⟨h.1, forall_setA h.2 ?_⟩
        have hrdok : memRoomOK rd := h.2 _ (lookupA_mem hl)
        intro hs
        exact hrdok hs
    · exact h
  · exact ⟨h.1, h.2⟩

theorem adminInv_scheduleRoomCleanup (db : DB) (room : String) (now : Nat) (h : adminInv db) :
    adminInv (scheduleRoomCleanup db room now) := h

theorem adminInv_cancelRoomCleanup (db : DB) (room : String) (h : adminInv db) :
    adminInv (cancelRoomCleanup db room) := h

theorem adminInv_clearRoomMessages (db : DB) (room : String) (h : adminInv db) :
    adminInv (clearRoomMessages db room) := by
  simp only [clearRoomMessages]
  split
  · exact h
  · exact ⟨h.1, h.2⟩

theorem adminInv_fireRoomCleanup (db : DB) (room : String) (h : adminInv db) :
    adminInv (fireRoomCleanup db room) := by
  have h1 := adminInv_getUsersInRoom db (normRoom room) h
  have h2 := adminInv_clearRoomMessages (getUsersInRoom db (normRoom room)).1 (normRoom room) h1
  simp only [fireRoomCleanup]
  split
  · split
    · exact ⟨forall_delA h2.1, forall_delA h2.2⟩
    · exact ⟨h2.1, forall_delA h2.2⟩
  · exact ⟨h1.1, h1.2⟩

theorem adminInv_getRoomInfoM (db : DB) (room : String) (h : adminInv db) :
    adminInv (getRoomInfoM db room) := by
  simp only [getRoomInfoM, checkRoomCapacity_state]
  exact adminInv_getUsersInRoom _ _ (adminInv_getUsersInRoom _ _ h)

/-- Under the admin invariant, a connection recognized as room admin forces the
room's `requireAdmin` flag to be true — on either store — so `handleUserLeaving`'s
transfer guard (`wasAdmin && ... && !roomRequiresAdmin`) can never fire. -/
theorem required_of_admin (db db2 : DB) (sid room : String)
    (hM : db2.roomMeta = db.roomMeta) (hm : db2.memRooms = db.memRooms)
    (hOn : db2.redisOn = db.redisOn)
    (h : adminInv db) (hadm : isRoomAdmin db sid room = true) :
    isRoomAdminRequired db2 room = true := by
  simp only [isRoomAdmin, getRoomAdmin, decide_eq_true_eq] at hadm
  simp only [isRoomAdminRequired, hM, hm, hOn]
  by_cases hc : db.redisOn = false
  · rw [if_pos hc] at hadm ⊢
    rcases Option.bind_eq_some.mp hadm with ⟨rd, hl, hsock⟩
    have hok := h.2 _ (lookupA_mem hl) (Or.inl (by rw [hsock]; rfl))
    rw [hl]
    simpa using hok
  · rw [if_neg hc] at hadm ⊢
    rcases Option.bind_eq_some.mp hadm with ⟨m, hl, hsock⟩
    have hok := (h.1 _ (lookupA_mem hl) (Or.inl (by rw [hsock]; rfl))).1
    rw [hl]
    simpa using hok

theorem adminInv_handleUserLeaving (db : DB) (sid : String) (u : UserRec) (now : Nat)
    (h : adminInv db) : adminInv (handleUserLeaving db sid u now).1 := by
  have h2 : adminInv (getUsersInRoom (getRoomInfoM db u.room) u.room).1 :=
    adminInv_getUsersInRoom _ _ (adminInv_getRoomInfoM _ _ h)
  simp only [handleUserLeaving]
  split
  · split
    · next hguard =>
        exfalso
        have hreq := required_of_admin db (getUsersInRoom (getRoomInfoM db u.room) u.room).1
          sid u.room (by simp [getRoomInfoM, checkRoomCapacity_state])
          (by simp [getRoomInfoM, checkRoomCapacity_state])
          (by simp [getRoomInfoM, checkRoomCapacity_state]) h hguard.1
        have hfalse := hguard.2.2
        rw [hreq] at hfalse
        exact absurd hfalse (by decide)
    · exact adminInv_scheduleRoomCleanup _ _ _ (adminInv_clearPendingUsers _ _ h2)
  · split
    · next hguard =>
        exfalso
        have hreq := required_of_admin db (getUsersInRoom (getRoomInfoM db u.room) u.room).1
          sid u.room (by simp [getRoomInfoM, checkRoomCapacity_state])
          (by simp [getRoomInfoM, checkRoomCapacity_state])
          (by simp [getRoomInfoM, checkRoomCapacity_state]) h hguard.1
        have hfalse := hguard.2.2
        rw [hreq] at hfalse
        exact absurd hfalse (by decide)
    · exact h2

theorem adminInv_leaveOp (db : DB) (sid : String) (now : Nat) (h : adminInv db) :
    adminInv (leaveOp db sid now).1 := by
  simp only [leaveOp]
  split
  · exact h
  · have h0 : adminInv { db with recentlyRemoved := sid :: db.recentlyRemoved } :=
      adminInv_of_eq rfl rfl h
    split
    · next db1 heq =>
        have := adminInv_removeUser _ sid h0
        rw [heq] at this
        exact this
    · next db1 u heq =>
        have h1 := adminInv_removeUser _ sid h0
        rw [heq] at h1
        exact adminInv_handleUserLeaving db1 sid u now h1

theorem adminInv_disconnectOp (db : DB) (sid : String) (now : Nat) (h : adminInv db) :
    adminInv (disconnectOp db sid now).1 := by
  simp only [disconnectOp]
  split
  · exact adminInv_of_eq rfl rfl h
  · have h0 : adminInv { db with recentlyRemoved := sid :: db.recentlyRemoved } :=
      adminInv_of_eq rfl rfl h
    split
    · next db1 heq =>
        have := adminInv_removeUser _ sid h0
        rw [heq] at this
        exact this
    · next db1 u heq =>
        have h1 := adminInv_removeUser _ sid h0
        rw [heq] at h1
        exact adminInv_handleUserLeaving db1 sid u now h1

theorem adminInv_joinOp (db : DB) (sid username room : String) (tok : Option Nat)
    (ra : Bool) (now : Nat) (h : adminInv db) :
    adminInv (joinOp db sid username room tok ra now).1 := by
  have h1 : adminInv (getRoomCount db room).1 := by
    rw [getRoomCount_state]
    exact adminInv_getUsersInRoom _ _ h
  simp only [joinOp]
  split
  · exact adminInv_addPendingUser _ _ _ h1
  · split
    · next db2 e heq =>
        have := adminInv_addUser _ sid username room tok ra h1
        rw [heq] at this
        exact this
    · next db2 user isAdm retTok heq =>
        have h2 := adminInv_addUser _ sid username room tok ra h1
        rw [heq] at h2
        exact adminInv_getUsersInRoom _ _ (adminInv_getRoomInfoM _ _
          (adminInv_cancelRoomCleanup _ _ h2))

theorem adminInv_approveOp (db : DB) (sid pendingSid room : String) (h : adminInv db) :
    adminInv (approveOp db sid pendingSid room).1 := by
  simp only [approveOp]
  split
  · exact h
  · split
    · exact h
    · split
      · next db1 heq =>
          have := adminInv_removePendingUser db room pendingSid h
          rw [heq] at this
          exact this
      · next db1 p heq =>
          have h1 := adminInv_removePendingUser db room pendingSid h
          rw [heq] at h1
          split
          · next db2 e heq2 =>
              have := adminInv_addUser db1 pendingSid p.username room none false h1
              rw [heq2] at this
              exact this
          · next db2 a b c heq2 =>
              have h2 := adminInv_addUser db1 pendingSid p.username room none false h1
              rw [heq2] at h2
              exact adminInv_getUsersInRoom _ _ (adminInv_getRoomInfoM _ _ h2)

theorem adminInv_rejectOp (db : DB) (sid pendingSid room : String) (h : adminInv db) :
    adminInv (rejectOp db sid pendingSid room) := by
  simp only [rejectOp]
  split
  · exact h
  · split
    · exact h
    · exact adminInv_removePendingUser db room pendingSid h

theorem adminInv_cancelOp (db : DB) (sid room : String) (h : adminInv db) :
    adminInv (cancelOp db sid room) :=
  adminInv_removePendingUser db room sid h

theorem adminInv_kickOp (db : DB) (sid targetSid room : String) (h : adminInv db) :
    adminInv (kickOp db sid targetSid room) := by
  simp only [kickOp]
  split
  · exact h
  · split
    · exact h
    · split
      · exact h
      · split
        · exact h
        · exact adminInv_getUsersInRoom _ _ (adminInv_getRoomInfoM _ _
            (adminInv_removeUser db targetSid h))

theorem adminInv_fireTimerOp (db : DB) (room : String) (h : adminInv db) :
    adminInv (fireTimerOp db room) := by
  simp only [fireTimerOp]
  split
  · exact adminInv_fireRoomCleanup db room h
  · exact h

theorem adminInv_unmarkOp (db : DB) (sid : String) (h : adminInv db) :
    adminInv (unmarkOp db sid) :=
  adminInv_of_eq rfl rfl h

theorem adminInv_step (db : DB) (op : Op) (now : Nat) (h : adminInv db) :
    adminInv (step db op now) := by
  cases op with
  | join sid u r tok ra => exact adminInv_joinOp db sid u r tok ra now h
  | leave sid => exact adminInv_leaveOp db sid now h
  | disconnect sid => exact adminInv_disconnectOp db sid now h
  | approve s p r => exact adminInv_approveOp db s p r h
  | reject s p r => exact adminInv_rejectOp db s p r h
  | cancelReq s r => exact adminInv_cancelOp db s r h
  | kick s t r => exact adminInv_kickOp db s t r h
  | fire r => exact adminInv_fireTimerOp db r h
  | unmark s => exact adminInv_unmarkOp db s h

theorem adminInv_initDB (b : Bool) : adminInv (initDB b) := by
  cases b <;> exact ⟨fun e he => absurd he (List.not_mem_nil e),
    fun e he => absurd he (List.not_mem_nil e)⟩

theorem adminInv_runOps (db : DB) (ops : List (Op × Nat)) (h : adminInv db) :
    adminInv (runOps db ops) := by
  induction ops generalizing db with
  | nil => exact h
  | cons p rest ih =>
      obtain ⟨op, now⟩ := p
      exact ih _ (adminInv_step db op now h)

/-- **C10** — In every state reachable from process start by any trace of
inbound events (join, leave, disconnect, approve, reject, cancel, kick,
timer fire, unmark), a room carries a non-null admin socket id (on either
the Redis meta hash or the in-memory fallback record) only if its
`requireAdmin` flag is true: the invariant holds initially, every single
`step` preserves it, reachable states satisfy the lookup-level implication
for both stores, and consequently a departing member recognized as room
admin always finds `roomRequiresAdmin = true`, so `handleUserLeaving`'s
transfer-on-departure branch (which demands `!roomRequiresAdmin`) is
unreachable from invariant states. -/
theorem c10_theorem :
    (∀ (db : DB) (op : Op) (now : Nat), adminInv db → adminInv (step db op now)) ∧
    (∀ (b : Bool) (ops : List (Op × Nat)), adminInv (runOps (initDB b) ops)) ∧
    (∀ (db : DB) (sid room : String), adminInv db → isRoomAdmin db sid room = true →
      isRoomAdminRequired (getUsersInRoom (getRoomInfoM db room) room).1 room = true) ∧
    (∀ (b : Bool) (ops : List (Op × Nat)) (r : String),
      (∀ m, lookupA (runOps (initDB b) ops).roomMeta r = some m →
        m.adminSocketId.isSome = true → m.requireAdmin = true) ∧
      (∀ rd, lookupA (runOps (initDB b) ops).memRooms r = some rd →
        rd.adminSocketId.isSome = true → rd.requireAdmin = true)) := by
  refine ⟨adminInv_step, ?_, ?_, ?_⟩
  · intro b ops
    exact adminInv_runOps _ _ (adminInv_initDB b)
  · intro db sid room h hadm
    exact required_of_admin db _ sid room
      (by simp [getRoomInfoM, checkRoomCapacity_state])
      (by simp [getRoomInfoM, checkRoomCapacity_state])
      (by simp [getRoomInfoM, checkRoomCapacity_state]) h hadm
  · intro b ops r
    have h := adminInv_runOps (initDB b) ops (adminInv_initDB b)
    exact ⟨fun m hm hs => ((h.1 _ (lookupA_mem hm)) (Or.inl hs)).1,
           fun rd hm hs => (h.2 _ (lookupA_mem hm)) (Or.inl hs)⟩

theorem c10_witness :
    adminInv (step (initDB true) (Op.join "s1" "alice" "ROOM1" none true) 0) ∧
    adminInv (runOps (initDB true) [(Op.join "s1" "alice" "ROOM1" none true, 0)]) ∧
    isRoomAdminRequired
      (getUsersInRoom
        (getRoomInfoM (runOps (initDB true) [(Op.join "s1" "alice" "ROOM1" none true, 0)])
          "ROOM1") "ROOM1").1 "ROOM1" = true :=
  ⟨c10_theorem.1 (initDB true) (Op.join "s1" "alice" "ROOM1" none true) 0 (by decide),
   c10_theorem.2.1 true [(Op.join "s1" "alice" "ROOM1" none true, 0)],
   c10_theorem.2.2.1 (runOps (initDB true) [(Op.join "s1" "alice" "ROOM1" none true, 0)])
     "s1" "ROOM1" (by decide) (by decide)⟩

/-- C3 scenario start: Redis connected, room `ROOM1` with `requireAdmin`,
admin `s1` (alice) holding token `T`, second member `s2` (bob). -/
def c3db (T : Nat) : DB :=
  { redisOn := true,
    users := [("s1", ⟨"s1", "alice", "ROOM1"⟩), ("s2", ⟨"s2", "bob", "ROOM1"⟩)],
    roomUsers := [("ROOM1", ["s1", "s2"])],
    roomMeta := [("ROOM1", ⟨true, some T, some "s1", true⟩)],
    roomPending := [], roomMessages := [], memUsers := [], memRooms := [],
    timers := [], recentlyRemoved := [], nextTok := T + 1 }

/-- C3 scenario after the admin's disconnect: session and membership of `s1`
gone, marker set, room meta untouched. -/
def c3mid (T : Nat) : DB :=
  { redisOn := true,
    users := [("s2", ⟨"s2", "bob", "ROOM1"⟩)],
    roomUsers := [("ROOM1", ["s2"])],
    roomMeta := [("ROOM1", ⟨true, some T, some "s1", true⟩)],
    roomPending := [], roomMessages := [], memUsers := [], memRooms := [],
    timers := [], recentlyRemoved := ["s1"], nextTok := T + 1 }

/-- C3 scenario after the rejoin on connection `s3` with token `T`: admin
socket re-pointed at `s3`, token still `T`. -/
def c3post (T : Nat) : DB :=
  { redisOn := true,
    users := [("s2", ⟨"s2", "bob", "ROOM1"⟩), ("s3", ⟨"s3", "alice", "ROOM1"⟩)],
    roomUsers := [("ROOM1", ["s2", "s3"])],
    roomMeta := [("ROOM1", ⟨true, some T, some "s3", true⟩)],
    roomPending := [], roomMessages := [], memUsers := [], memRooms := [],
    timers := [], recentlyRemoved := ["s1"], nextTok := T + 1 }

/-- Symbolic run of `joinOp` when the pending gate does not fire and the
`addUser` call succeeds: the handler returns the post-read state, the join
broadcast, and the admin flag/token computed from the add result. -/
theorem joinOp_nogate (db db1 : DB) (cnt : Nat) (sid username room : String)
    (tok : Option Nat) (ra : Bool) (now : Nat) (db2 : DB) (user : UserRec)
    (isAdm : Bool) (retTok : Option Nat)
    (hcount : getRoomCount db room = (db1, cnt))
    (hgate : ¬((getRoomAdmin db room).isSome = true ∧ cnt > 0 ∧ isLocRoom room = false ∧
        (match tok, getRoomAdminToken db room with
          | some t, some t2 => decide (t = t2)
          | _, _ => false) = false ∧
        isRoomAdminRequired db1 room = true))
    (hadd : addUser db1 sid username room tok ra = (db2, AddResult.ok user isAdm retTok)) :
    joinOp db sid username room tok ra now =
      ((getUsersInRoom (getRoomInfoM (cancelRoomCleanup db2 user.room) user.room) user.room).1,
       [Ev.userJoined user.room user.username],
       JoinOutcome.joined
         (isAdm || decide (getRoomAdmin
             ((getUsersInRoom (getRoomInfoM (cancelRoomCleanup db2 user.room) user.room)
               user.room).1) user.room = some sid)) retTok) := by
  simp only [joinOp, hcount]
  split
  · next hcon => exact absurd hcon hgate
  · rw [hadd]

set_option maxHeartbeats 1600000 in
/-- **C3** — admin token survives a disconnect/rejoin cycle: for every token
value `T` and instants `now`, `later`, when the admin `s1` of the
`requireAdmin` room `ROOM1` (holding token `T`, with member `s2` remaining)
disconnects, no admin transfer happens during the gap (room meta is
byte-identical, still naming socket `s1` and token `T`), and a rejoin on the
fresh connection `s3` supplying token `T` is admitted immediately (no
pending queue), recognized as admin, and handed back exactly token `T`,
with the meta now naming socket `s3` and the same token `T`. -/
theorem c3_theorem (T now later : Nat) :
    (disconnectOp (c3db T) "s1" now).1 = c3mid T ∧
    (c3mid T).roomMeta = (c3db T).roomMeta ∧
    getRoomAdmin (c3mid T) "ROOM1" = some "s1" ∧
    getRoomAdminToken (c3mid T) "ROOM1" = some T ∧
    (joinOp (c3mid T) "s3" "alice" "ROOM1" (some T) true later).2.2 =
      JoinOutcome.joined true (some T) ∧
    (joinOp (c3mid T) "s3" "alice" "ROOM1" (some T) true later).1 = c3post T ∧
    getRoomAdmin (c3post T) "ROOM1" = some "s3" ∧
    getRoomAdminToken (c3post T) "ROOM1" = some T := by
  have key : addUserMetaStep ⟨true, some T, some "s1", true⟩ false "s3" (some T) true (T + 1) =
      (⟨true, some T, some "s3", true⟩, true, some T, T + 1) := by
    show (if false = false ∧ T = T then
            ((⟨true, some T, some "s3", true⟩ : RoomMeta), true, some T, T + 1)
          else ((⟨true, some T, some "s1", true⟩ : RoomMeta), false, none, T + 1)) =
        ((⟨true, some T, some "s3", true⟩ : RoomMeta), true, some T, T + 1)
    rw [if_pos ⟨rfl, rfl⟩]
  have hadd : addUser (c3mid T) "s3" "alice" "ROOM1" (some T) true =
      (c3post T, AddResult.ok ⟨"s3", "alice", "ROOM1"⟩ true (some T)) := by
    have h1 : addUser (c3mid T) "s3" "alice" "ROOM1" (some T) true =
        ((fun ms => (({ c3mid T with
              users := [("s2", ⟨"s2", "bob", "ROOM1"⟩), ("s3", ⟨"s3", "alice", "ROOM1"⟩)],
              roomUsers := [("ROOM1", ["s2", "s3"])],
              roomMeta := [("ROOM1", ms.1)],
              nextTok := ms.2.2.2,
              timers := [] } : DB),
            AddResult.ok ⟨"s3", "alice", "ROOM1"⟩ ms.2.1 ms.2.2.1))
          (addUserMetaStep ⟨true, some T, some "s1", true⟩ false "s3" (some T) true (T + 1))) :=
      rfl
    rw [h1, key]
    rfl
  have hcount : getRoomCount (c3mid T) "ROOM1" = (c3mid T, 1) := rfl
  have hmatch : (match (some T : Option Nat), getRoomAdminToken (c3mid T) "ROOM1" with
      | some t, some t2 => decide (t = t2)
      | _, _ => false) = decide (T = T) := rfl
  have hgate : ¬((getRoomAdmin (c3mid T) "ROOM1").isSome = true ∧ (1 : Nat) > 0 ∧
      isLocRoom "ROOM1" = false ∧
      (match (some T : Option Nat), getRoomAdminToken (c3mid T) "ROOM1" with
        | some t, some t2 => decide (t = t2)
        | _, _ => false) = false ∧
      isRoomAdminRequired (c3mid T) "ROOM1" = true) := by
    intro hcon
    have h4 := hcon.2.2.2.1
    rw [hmatch] at h4
    simp at h4
  have hjoin := joinOp_nogate (c3mid T) (c3mid T) 1 "s3" "alice" "ROOM1" (some T) true later
    (c3post T) ⟨"s3", "alice", "ROOM1"⟩ true (some T) hcount hgate hadd
  have hred : (getUsersInRoom (getRoomInfoM (cancelRoomCleanup (c3post T) "ROOM1") "ROOM1")
      "ROOM1").1 = c3post T := rfl
  refine ⟨rfl, rfl, rfl, rfl, ?_, ?_, rfl, rfl⟩
  · rw [hjoin]
    rfl
  · rw [hjoin]
    exact hred

/-- C4 scenario start: Redis connected, room `ROOM1` with
`requireAdmin = false` whose meta nevertheless names admin `s1` with token
`T`; members `s1` (alice, the admin) and `s2` (bob). -/
def c4db (T : Nat) : DB :=
  { redisOn := true,
    users := [("s1", ⟨"s1", "alice", "ROOM1"⟩), ("s2", ⟨"s2", "bob", "ROOM1"⟩)],
    roomUsers := [("ROOM1", ["s1", "s2"])],
    roomMeta := [("ROOM1", ⟨true, some T, some "s1", false⟩)],
    roomPending := [], roomMessages := [], memUsers := [], memRooms := [],
    timers := [], recentlyRemoved := [], nextTok := T + 1 }

/-- C4 scenario after the admin's leave: membership handed to `s2`, admin
capability transferred to `s2` with the freshly generated token `T + 1`. -/
def c4post (T : Nat) : DB :=
  { redisOn := true,
    users := [("s2", ⟨"s2", "bob", "ROOM1"⟩)],
    roomUsers := [("ROOM1", ["s2"])],
    roomMeta := [("ROOM1", ⟨true, some (T + 1), some "s2", false⟩)],
    roomPending := [], roomMessages := [], memUsers := [], memRooms := [],
    timers := [], recentlyRemoved := ["s1"], nextTok := T + 2 }

set_option maxHeartbeats 1600000 in
/-- **C4** — admin handoff on departure from a non-`requireAdmin` room: for
every token value `T` and instant `now`, when admin `s1` (holding token `T`)
leaves `ROOM1` (`requireAdmin = false`) while member `s2` remains, the leave
hands the room to the first remaining member in enumeration order (`s2`,
also announced by the emitted `newAdminStatus` / `adminChanged` events) and
installs the freshly generated token `T + 1`, which differs from the
departing admin's token `T`. -/
theorem c4_theorem (T now : Nat) :
    (leaveOp (c4db T) "s1" now).1 = c4post T ∧
    (leaveOp (c4db T) "s1" now).2 =
      [Ev.leftMessage "ROOM1" "alice", Ev.userLeft "ROOM1" "alice",
       Ev.newAdminStatus "s2" (some (T + 1)), Ev.adminChanged "ROOM1" "bob",
       Ev.roomData "ROOM1"] ∧
    (getUsersInRoom (c4post T) "ROOM1").2 = [⟨"s2", "bob", "ROOM1"⟩] ∧
    getRoomAdmin (c4post T) "ROOM1" = some "s2" ∧
    getRoomAdminToken (c4post T) "ROOM1" = some (T + 1) ∧
    getRoomAdminToken (c4db T) "ROOM1" = some T ∧
    T + 1 ≠ T := by
  refine ⟨rfl, rfl, rfl, rfl, rfl, rfl, ?_⟩
  simp

end FlashChat
